import Mathlib

/-!
Verification of the deterministic simulation core of an RTS game
(Age-of-Empires-2 clone).  The definitions below are a shallow embedding of
the TypeScript sources: `shared/src/utils.ts` (A* pathfinder), the
`CombatSystem`, `EntityManager`, `BuildingSystem` and `FogOfWar` classes.
JavaScript numbers are modelled as `Int`/`ℚ`, and the pathfinder's
`1`/`Math.SQRT2` step costs are represented exactly as values `a + b·√2`
with integer `a`, `b`.
-/

/-- Exact representation of the real number `a + b·√2`.  The pathfinder's
g/h/f costs all have this shape (orthogonal steps cost 1, diagonal steps
cost √2, and the octile heuristic is `(max−min) + min·√2`). -/
structure Q2 where
  a : Int
  b : Int
deriving DecidableEq, Repr

namespace Q2

def add (p q : Q2) : Q2 := ⟨p.a + q.a, p.b + q.b⟩

instance : Add Q2 := ⟨add⟩

def zero : Q2 := ⟨0, 0⟩

def one : Q2 := ⟨1, 0⟩

def sqrt2 : Q2 := ⟨0, 1⟩

/-- Decides `x + y·√2 < 0` by integer arithmetic (sign analysis plus
squaring). -/
def negVal (x y : Int) : Bool :=
  (x < 0 && (y < 0 || 2 * y * y < x * x)) || (0 ≤ x && y < 0 && x * x < 2 * y * y)

/-- Strict comparison of exact `a + b·√2` values; this is the model of the
floating point `<` used on node costs in `findPath`. -/
def lt (p q : Q2) : Bool := negVal (p.a - q.a) (p.b - q.b)

noncomputable def toReal (p : Q2) : ℝ := (p.a : ℝ) + (p.b : ℝ) * Real.sqrt 2

end Q2

namespace Utils

/-! ## Pathfinder (`shared/src/utils.ts`, `findPath` / `findNearestWalkable`)

Tiles are integer pairs, the walkability mask is a Boolean function, and
node costs are exact `Q2` values.  The `parent` pointer of a TS `PathNode`
is represented by `trail`: the list of positions from the node back to the
start (the node itself first), which is exactly what the reconstruction
loop `while (node) path.unshift(...)` reads off the parent chain. -/

/-- Octile heuristic `max(dx,dy) + (√2−1)·min(dx,dy)`, written exactly as
`(max−min) + min·√2`. -/
def heuristic (p q : Int × Int) : Q2 :=
  let dx : Int := (p.1 - q.1).natAbs
  let dy : Int := (p.2 - q.2).natAbs
  ⟨max dx dy - min dx dy, min dx dy⟩

structure PathNode where
  x : Int
  y : Int
  g : Q2
  h : Q2
  f : Q2
  trail : List (Int × Int)
deriving Repr

/-- The `for` scan for the lowest-`f` index followed by `splice` of that
index: returns the earliest node with strictly minimal `f` together with
the remaining open list in its original order. -/
def extractLowest : PathNode → List PathNode → PathNode × List PathNode
  | best, [] => (best, [])
  | best, n :: rest =>
      if Q2.lt n.f best.f then
        let r := extractLowest n rest
        (r.1, best :: r.2)
      else
        let r := extractLowest best rest
        (r.1, n :: r.2)

/-- `openSet.findIndex` on the neighbour's coordinates: if a node with the
same coordinates exists, update its `g`, `f` and parent when the new `g`
is smaller; otherwise `push` the new node at the end. -/
def insertOrImprove (node : PathNode) : List PathNode → List PathNode
  | [] => [node]
  | n :: rest =>
      if n.x = node.x ∧ n.y = node.y then
        if Q2.lt node.g n.g then
          { n with g := node.g, f := node.f, trail := node.trail } :: rest
        else
          n :: rest
      else
        n :: insertOrImprove node rest

/-- The 8 neighbour offsets, in source order. -/
def neighborOffsets : List (Int × Int) :=
  [(-1, -1), (0, -1), (1, -1), (-1, 0), (1, 0), (-1, 1), (0, 1), (1, 1)]

/-- One expansion step: process all 8 neighbours of `cur` against the open
list (bounds, walkability, closed set, the no-corner-cutting rule for
diagonals, then cost computation and open-set insertion/improvement). -/
def expand (walk : Int → Int → Bool) (w h : Int) (goal : Int × Int)
    (closed : List (Int × Int)) (cur : PathNode) (openSet : List PathNode) :
    List PathNode :=
  neighborOffsets.foldl
    (fun acc d =>
      let nx := cur.x + d.1
      let ny := cur.y + d.2
      if nx < 0 ∨ nx ≥ w ∨ ny < 0 ∨ ny ≥ h then acc
      else if ¬ walk nx ny then acc
      else if (nx, ny) ∈ closed then acc
      else if d.1 ≠ 0 ∧ d.2 ≠ 0 ∧ (¬ walk (cur.x + d.1) cur.y ∨ ¬ walk cur.x (cur.y + d.2)) then acc
      else
        let moveCost := if d.1 ≠ 0 ∧ d.2 ≠ 0 then Q2.sqrt2 else Q2.one
        let g := cur.g + moveCost
        let hh := heuristic (nx, ny) goal
        insertOrImprove ⟨nx, ny, g, hh, g + hh, (nx, ny) :: cur.trail⟩ acc)
    openSet

/-- The main A* loop; the fuel is `maxIterations` (the loop guard
`iterations < maxIterations` with `iterations++` per pass). -/
def astarLoop (walk : Int → Int → Bool) (w h : Int) (goal : Int × Int) :
    Nat → List PathNode → List (Int × Int) → Option (List (Int × Int))
  | _, [], _ => none
  | 0, _ :: _, _ => none
  | fuel + 1, o :: os, closed =>
      let r := extractLowest o os
      if r.1.x = goal.1 ∧ r.1.y = goal.2 then some r.1.trail.reverse
      else
        astarLoop walk w h goal fuel
          (expand walk w h goal closed r.1 r.2) ((r.1.x, r.1.y) :: closed)

/-- Offsets `(dx, dy)` with `dx, dy ∈ [−r, r]`, `dx` in the outer loop —
one radius pass of `findNearestWalkable`. -/
def squareOffsets (r : Nat) : List (Int × Int) :=
  (List.range (2 * r + 1)).flatMap fun (i : Nat) =>
    (List.range (2 * r + 1)).map fun (j : Nat) => ((i : Int) - r, (j : Int) - r)

/-- Candidate test inside `findNearestWalkable`:
`x >= 0 && x < mapWidth && y >= 0 && y < mapHeight && isWalkable(x, y)`. -/
def nearCandidate (walk : Int → Int → Bool) (w h : Int) (p : Int × Int) : Bool :=
  0 ≤ p.1 && p.1 < w && 0 ≤ p.2 && p.2 < h && walk p.1 p.2

def findNearestWalkableAux (pos : Int × Int) (walk : Int → Int → Bool)
    (w h : Int) : List Nat → Option (Int × Int)
  | [] => none
  | r :: rs =>
      match (squareOffsets r).find? (fun d => nearCandidate walk w h (pos.1 + d.1, pos.2 + d.2)) with
      | some d => some (pos.1 + d.1, pos.2 + d.2)
      | none => findNearestWalkableAux pos walk w h rs

/-- `findNearestWalkable`: radius 1 to 9 (`radius < 10`), returning the
first in-bounds walkable tile found in the scan order. -/
def findNearestWalkable (pos : Int × Int) (walk : Int → Int → Bool) (w h : Int) :
    Option (Int × Int) :=
  findNearestWalkableAux pos walk w h ((List.range 9).map (· + 1))

/-- The effective goal of a `findPath` call: the goal itself when walkable,
otherwise the nearest-walkable substitute. -/
def effectiveGoal (goal : Int × Int) (walk : Int → Int → Bool) (w h : Int) :
    Option (Int × Int) :=
  if walk goal.1 goal.2 then some goal else findNearestWalkable goal walk w h

/-- `findPath(start, end, isWalkable, mapWidth, mapHeight, maxIterations)`. -/
def findPath (start goal : Int × Int) (walk : Int → Int → Bool) (w h : Int)
    (maxIterations : Nat := 2000) : Option (List (Int × Int)) :=
  match effectiveGoal goal walk w h with
  | none => none
  | some e =>
      let h0 := heuristic start e
      astarLoop walk w h e maxIterations [⟨start.1, start.2, Q2.zero, h0, Q2.zero + h0, [start]⟩] []

/-! ### Soundness of returned paths -/

/-- A single legal move of the expansion: an 8-neighbour step into an
in-bounds walkable tile, where a diagonal step additionally requires both
orthogonal neighbour tiles to be walkable (no corner-cutting). -/
def stepOk (walk : Int → Int → Bool) (w h : Int) (a b : Int × Int) : Bool :=
  decide ((b.1 - a.1, b.2 - a.2) ∈ neighborOffsets) &&
  decide (0 ≤ b.1 ∧ b.1 < w ∧ 0 ≤ b.2 ∧ b.2 < h) &&
  walk b.1 b.2 &&
  (!(decide (b.1 - a.1 ≠ 0 ∧ b.2 - a.2 ≠ 0)) || (walk b.1 a.2 && walk a.1 b.2))

/-- A node invariant: its `trail` starts at the node's own coordinates,
ends at the search's start tile, and every parent link is a legal move
(from parent to child). -/
def nodeOk (walk : Int → Int → Bool) (w h : Int) (start : Int × Int)
    (n : PathNode) : Prop :=
  n.trail.head? = some (n.x, n.y) ∧ n.trail.getLast? = some start ∧
  List.Chain' (fun p q => stepOk walk w h q p = true) n.trail

/-! ### The nearest-walkable search -/

/-- Chebyshev distance between tiles (the radius of the smallest centred
square containing both). -/
def chebDist (p q : Int × Int) : Nat :=
  max (p.1 - q.1).natAbs (p.2 - q.2).natAbs

/-- The move cost of a path: 1 per orthogonal step, √2 per diagonal step. -/
def pathCost : List (Int × Int) → Q2
  | [] => Q2.zero
  | [_] => Q2.zero
  | a :: b :: rest =>
      (if b.1 - a.1 ≠ 0 ∧ b.2 - a.2 ≠ 0 then Q2.sqrt2 else Q2.one) + pathCost (b :: rest)

end Utils

namespace SeededRandom

/-! ## Seeded random generator (`shared/src/utils.ts`, `SeededRandom`) -/

/-- `SeededRandom.next`: `seed = (seed * 16807 + 0) % 2147483647`, the
returned sample being `seed / 2147483647`.  This is the only seeded
generator in the code base. -/
def next (seed : Int) : Int × ℚ :=
  let s2 := (seed * 16807 + 0) % 2147483647
  (s2, (s2 : ℚ) / 2147483647)

end SeededRandom

namespace CombatSystem

/-! ## Combat system (`CombatSystem`)

`dealDamage` needs the attacker's unit stats, the target's unit or
building stats, and the target's hp.  `Object.entries(bonusDamage)` is
modelled as an association list in key order. -/

inductive UnitCategory
  | civilian
  | infantry
  | archer
  | cavalry
  | siege
  | naval
  | monk
  | hero
deriving DecidableEq, Repr

/-- The fields of `UnitStats` that `dealDamage` reads.  `range`,
`meleeArmor` and `pierceArmor` are required fields of the static table, so
the source's `?? 0` fallbacks never fire on them. -/
structure UnitStats where
  attack : Int
  meleeArmor : Int
  pierceArmor : Int
  range : Int
  category : UnitCategory
  bonusDamage : Option (List (String × Int))
deriving DecidableEq, Repr

structure BuildingStats where
  meleeArmor : Int
  pierceArmor : Int
deriving DecidableEq, Repr

/-- A damage target: a unit, a building, or an entity with neither
component (`getUnitData` and `getBuildingData` both `undefined`). -/
inductive Target
  | unit (stats : UnitStats)
  | building (stats : BuildingStats)
  | other
deriving DecidableEq, Repr

/-- The `categoryMap` of `matchesCategory`. -/
def categoryMap (s : String) : Option (List UnitCategory) :=
  if s = "infantry" then some [.infantry]
  else if s = "cavalry" then some [.cavalry]
  else if s = "archer" then some [.archer]
  else if s = "siege" then some [.siege]
  else if s = "monk" then some [.monk]
  else if s = "ship" then some [.naval]
  else if s = "camel" then some [.cavalry]
  else if s = "elephant" then some [.cavalry]
  else if s = "spearman" then some [.infantry]
  else if s = "eagle" then some [.infantry]
  else if s = "unique" then some [.infantry, .cavalry, .archer]
  else none

def matchesCategory (category : UnitCategory) (against : String) : Bool :=
  match categoryMap against.toLower with
  | some ms => ms.contains category
  | none => false

/-- The contribution of one `bonusDamage` entry: the unit branch adds when
the target unit's category matches, the building branch adds when the key
is `building`; a given target takes at most one of the two branches. -/
def bonusFor (target : Target) (e : String × Int) : Int :=
  (match target with
   | .unit ts => if matchesCategory ts.category e.1 then e.2 else 0
   | _ => 0) +
  (match target with
   | .building _ => if e.1 = "building" then e.2 else 0
   | _ => 0)

/-- `baseDamage`: attacker attack plus the applicable bonus-damage
entries. -/
def baseDamage (attacker : UnitStats) (target : Target) : Int :=
  match attacker.bonusDamage with
  | none => attacker.attack
  | some entries => entries.foldl (fun acc e => acc + bonusFor target e) attacker.attack

/-- Armor selection: pierce armor when the attacker's range exceeds 1,
melee armor otherwise; 0 when the target is neither unit nor building. -/
def armorOf (attacker : UnitStats) (target : Target) : Int :=
  match target with
  | .unit ts => if attacker.range > 1 then ts.pierceArmor else ts.meleeArmor
  | .building bs => if attacker.range > 1 then bs.pierceArmor else bs.meleeArmor
  | .other => 0

/-- `EntityManager.damage`: `hp = Math.max(0, hp - amount)`, returning the
new hp and the killed flag `hp <= 0`. -/
def damage (hp amount : Int) : Int × Bool :=
  let hp2 := max 0 (hp - amount)
  (hp2, hp2 ≤ 0)

/-- `finalDamage = Math.max(1, baseDamage - armor)`. -/
def finalDamage (attacker : UnitStats) (target : Target) : Int :=
  max 1 (baseDamage attacker target - armorOf attacker target)

/-- `CombatSystem.dealDamage` restricted to its hp effect: applies
`finalDamage` through `EntityManager.damage`. -/
def dealDamage (attacker : UnitStats) (target : Target) (hp : Int) : Int × Bool :=
  damage hp (finalDamage attacker target)

/-- `CombatSystem.attemptConversion`: succeeds iff the draw of the
*unseeded* `Math.random()` is below the flat 2% per-tick chance and the
target entity exists.  `mathRandomDraw` is supplied by the JavaScript
runtime; the function consults neither `SeededRandom` nor the tick
counter. -/
def attemptConversion (mathRandomDraw : ℚ) (targetExists : Bool) : Bool :=
  if mathRandomDraw < 2 / 100 then targetExists else false

/-- `handleEntityKill` removes a dead unit via
`setTimeout(..., 1500)`: the removal fires 1500 wall-clock milliseconds
after the kill, independent of the simulation tick counter. -/
def deadUnitRemovalWallClockMs (killWallClockMs : ℚ) : ℚ :=
  killWallClockMs + 1500

end CombatSystem

namespace EntityManager

/-! ## Entity manager (`EntityManager`)

JS `Map`s that are only read by key are modelled as functions
`Nat → Option _`; the `units` and `buildings` maps, which the code also
iterates (population counts, queries), are association lists in insertion
order with unique keys.  `Map.set` of an existing key updates in place,
of a new key appends; `Map.delete` removes the entry.  The spatial grid
maps each cell to its entity array; the source's deletion of emptied cell
arrays is observationally the empty array. -/

inductive EntityType
  | unit
  | building
  | resource
deriving DecidableEq, Repr

structure EntityBase where
  owner : Int
  type : EntityType
deriving DecidableEq, Repr

structure PositionComponent where
  x : ℚ
  y : ℚ
  prevX : ℚ
  prevY : ℚ
deriving DecidableEq, Repr

structure HealthComponent where
  hp : Int
  maxHp : Int
deriving DecidableEq, Repr

structure QueueItem where
  unitId : String
  progress : ℚ
  totalTime : ℚ
deriving DecidableEq, Repr

structure ResearchItem where
  techId : String
  progress : ℚ
  totalTime : ℚ
deriving DecidableEq, Repr

/-- The fields of a static `UNITS` record that the embedded operations
read. -/
structure UnitData where
  uid : String
  hp : Int
  trainTime : ℚ
  populationCost : Option Int
  cost : List (String × Int)
deriving DecidableEq, Repr

/-- The fields of a static `BUILDINGS` record that the embedded
operations read; `size` is `Option` because the code guards it with
`?? {x:2, y:2}`. -/
structure BuildingData where
  bid : String
  hp : Int
  size : Option (Int × Int)
  populationProvided : Option Int
  trains : Option (List String)
  cost : List (String × Int)
deriving DecidableEq, Repr

structure UnitComponent where
  data : UnitData
  state : String
  targetId : Option Nat
  targetPos : Option (ℚ × ℚ)
  path : List (ℚ × ℚ)
  pathIndex : Nat
  attackCooldown : ℚ
  gatherCooldown : ℚ
  carryAmount : Int
  carryType : Option String
  garrisonedIn : Option Nat
  patrolPoints : List (ℚ × ℚ)
  patrolIndex : Nat
  facing : ℚ
deriving DecidableEq, Repr

structure BuildingComponent where
  data : BuildingData
  buildProgress : ℚ
  isComplete : Bool
  trainingQueue : List QueueItem
  researchQueue : List ResearchItem
  rallyPoint : Option (ℚ × ℚ)
  garrisonedUnits : List Nat
  farmFoodRemaining : Int
deriving DecidableEq, Repr

structure ResourceComponent where
  resourceType : String
  amount : Int
deriving DecidableEq, Repr

def mapGet {V : Type} (m : List (Nat × V)) (k : Nat) : Option V :=
  (m.find? (fun e => e.1 == k)).map Prod.snd

def mapSet {V : Type} : List (Nat × V) → Nat → V → List (Nat × V)
  | [], k, v => [(k, v)]
  | e :: m, k, v => if e.1 = k then (k, v) :: m else e :: mapSet m k v

def mapDel {V : Type} (m : List (Nat × V)) (k : Nat) : List (Nat × V) :=
  m.filter (fun e => e.1 != k)

structure EMState where
  nextEntityId : Nat
  entities : Nat → Option EntityBase
  positions : Nat → Option PositionComponent
  health : Nat → Option HealthComponent
  units : List (Nat × UnitComponent)
  buildings : List (Nat × BuildingComponent)
  resources : Nat → Option ResourceComponent
  spatialGrid : (Int × Int) → List Nat

/-- `init()` / the freshly constructed manager. -/
def init : EMState :=
  { nextEntityId := 1,
    entities := fun _ => none,
    positions := fun _ => none,
    health := fun _ => none,
    units := [],
    buildings := [],
    resources := fun _ => none,
    spatialGrid := fun _ => [] }

/-- `CELL_SIZE = 4`; a world position's grid cell is
`(floor(x/4), floor(y/4))`. -/
def cellKey (wx wy : ℚ) : Int × Int := (Int.floor (wx / 4), Int.floor (wy / 4))

def addToSpatialGrid (g : (Int × Int) → List Nat) (id : Nat) (wx wy : ℚ) :
    (Int × Int) → List Nat :=
  fun c => if c = cellKey wx wy then g c ++ [id] else g c

/-- `splice(indexOf(id), 1)`: removes the first occurrence of `id` from
the cell's array. -/
def removeFromSpatialGrid (g : (Int × Int) → List Nat) (id : Nat) (wx wy : ℚ) :
    (Int × Int) → List Nat :=
  fun c => if c = cellKey wx wy then (g c).erase id else g c

def createUnit (UNITS : String → Option UnitData) (unitId : String)
    (owner : Int) (x y : ℚ) (s : EMState) : Option (Nat × EMState) :=
  match UNITS unitId with
  | none => none
  | some data =>
      let id := s.nextEntityId
      some (id,
        { s with
          nextEntityId := id + 1,
          entities := fun k => if k = id then some ⟨owner, .unit⟩ else s.entities k,
          positions := fun k => if k = id then some ⟨x, y, x, y⟩ else s.positions k,
          health := fun k => if k = id then some ⟨data.hp, data.hp⟩ else s.health k,
          units := mapSet s.units id
            ⟨data, "idle", none, none, [], 0, 0, 0, 0, none, none, [], 0, 0⟩,
          spatialGrid := addToSpatialGrid s.spatialGrid id x y })

/-- The footprint tile offsets of a building of the given size, `dy`
outer, `dx` inner, as in `createBuilding`/`removeEntity`. -/
def footprintOffsets (size : Int × Int) : List (Int × Int) :=
  (List.range size.2.toNat).flatMap fun (dy : Nat) =>
    (List.range size.1.toNat).map fun (dx : Nat) => ((dx : Int), (dy : Int))

def createBuilding (BUILDINGS : String → Option BuildingData) (buildingId : String)
    (owner : Int) (x y : ℚ) (complete : Bool) (s : EMState) :
    Option (Nat × EMState) :=
  match BUILDINGS buildingId with
  | none => none
  | some data =>
      let id := s.nextEntityId
      let size := data.size.getD (2, 2)
      some (id,
        { s with
          nextEntityId := id + 1,
          entities := fun k => if k = id then some ⟨owner, .building⟩ else s.entities k,
          positions := fun k => if k = id then some ⟨x, y, x, y⟩ else s.positions k,
          health := fun k => if k = id then
              some ⟨if complete then data.hp else Int.floor ((data.hp : ℚ) / 10), data.hp⟩
            else s.health k,
          buildings := mapSet s.buildings id
            ⟨data, if complete then 1 else 0, complete, [], [], none, [],
              if buildingId = "farm" then 175 else 0⟩,
          spatialGrid := (footprintOffsets size).foldl
            (fun g d => addToSpatialGrid g id (x + d.1) (y + d.2)) s.spatialGrid })

def createResource (resourceType : String) (amount : Int) (x y : ℚ)
    (s : EMState) : Nat × EMState :=
  let id := s.nextEntityId
  (id,
    { s with
      nextEntityId := id + 1,
      entities := fun k => if k = id then some ⟨-1, .resource⟩ else s.entities k,
      positions := fun k => if k = id then some ⟨x, y, x, y⟩ else s.positions k,
      resources := fun k => if k = id then some ⟨resourceType, amount⟩ else s.resources k,
      spatialGrid := addToSpatialGrid s.spatialGrid id x y })

def removeEntity (id : Nat) (s : EMState) : EMState :=
  let g1 := match s.positions id with
    | none => s.spatialGrid
    | some pos =>
        match mapGet s.buildings id with
        | some building =>
            let size := building.data.size.getD (2, 2)
            (footprintOffsets size).foldl
              (fun g d => removeFromSpatialGrid g id (pos.x + d.1) (pos.y + d.2))
              s.spatialGrid
        | none => removeFromSpatialGrid s.spatialGrid id pos.x pos.y
  { s with
    spatialGrid := g1,
    entities := fun k => if k = id then none else s.entities k,
    positions := fun k => if k = id then none else s.positions k,
    health := fun k => if k = id then none else s.health k,
    units := mapDel s.units id,
    buildings := mapDel s.buildings id,
    resources := fun k => if k = id then none else s.resources k }

def setPosition (id : Nat) (x y : ℚ) (s : EMState) : EMState :=
  match s.positions id with
  | none => s
  | some pos =>
      { s with
        positions := fun k => if k = id then some ⟨x, y, pos.x, pos.y⟩ else s.positions k,
        spatialGrid :=
          addToSpatialGrid (removeFromSpatialGrid s.spatialGrid id pos.x pos.y) id x y }

def getOwner (s : EMState) (id : Nat) : Int :=
  ((s.entities id).map (·.owner)).getD (-1)

def isUnit (s : EMState) (id : Nat) : Bool :=
  match s.entities id with
  | some e => e.type = .unit
  | none => false

def getPopulation (s : EMState) (ownerId : Int) : Int :=
  s.units.foldl
    (fun pop e =>
      if getOwner s e.1 = ownerId then pop + e.2.data.populationCost.getD 1 else pop)
    0

def getPopulationCap (s : EMState) (ownerId : Int) : Int :=
  min
    (s.buildings.foldl
      (fun cap e =>
        if getOwner s e.1 = ownerId ∧ e.2.isComplete then
          cap + e.2.data.populationProvided.getD 0
        else cap)
      0)
    200

def addToTrainingQueue (UNITS : String → Option UnitData) (id : Nat)
    (unitId : String) (s : EMState) : Bool × EMState :=
  match mapGet s.buildings id with
  | none => (false, s)
  | some building =>
      if ¬ building.isComplete then (false, s)
      else if building.trainingQueue.length ≥ 15 then (false, s)
      else
        match UNITS unitId with
        | none => (false, s)
        | some unitData =>
            let b2 := { building with trainingQueue :=
              building.trainingQueue ++ [⟨unitId, 0, unitData.trainTime⟩] }
            (true, { s with buildings := mapSet s.buildings id b2 })

/-- Inclusive integer range `a..b` for the cell loops of the queries. -/
def intRangeIncl (a b : Int) : List Int :=
  (List.range (b - a + 1).toNat).map fun (i : Nat) => a + (i : Int)

/-- The per-id body of `getEntitiesInRect`'s cell loop: dedupe via the
`checked` set, keep only units (optionally of the given owner) whose
position lies inside the rectangle. -/
def rectCheckStep (s : EMState) (x y w h : ℚ) (ownerId : Option Int)
    (acc : List Nat × List Nat) (id : Nat) : List Nat × List Nat :=
  if id ∈ acc.1 then acc
  else
    let checked := acc.1 ++ [id]
    if ¬ isUnit s id then (checked, acc.2)
    else if (match ownerId with
             | some o => decide (getOwner s id ≠ o)
             | none => false) then (checked, acc.2)
    else
      match s.positions id with
      | none => (checked, acc.2)
      | some pos =>
          if pos.x ≥ x ∧ pos.x ≤ x + w ∧ pos.y ≥ y ∧ pos.y ≤ y + h then
            (checked, acc.2 ++ [id])
          else (checked, acc.2)

/-- `getEntitiesInRect(x, y, w, h, ownerId?)`: scans the grid cells
covering the rectangle and filters their id arrays through
`rectCheckStep`. -/
def getEntitiesInRect (s : EMState) (x y w h : ℚ) (ownerId : Option Int) :
    List Nat :=
  let startCX := Int.floor (x / 4)
  let startCY := Int.floor (y / 4)
  let endCX := Int.ceil ((x + w) / 4)
  let endCY := Int.ceil ((y + h) / 4)
  let cells := (intRangeIncl startCY endCY).flatMap fun cy =>
    (intRangeIncl startCX endCX).map fun cx => (cx, cy)
  (cells.foldl
    (fun (acc : List Nat × List Nat) c =>
      (s.spatialGrid c).foldl (rectCheckStep s x y w h ownerId) acc)
    ([], [])).2

/-- The unit part of a snapshot entry. -/
structure SerUnit where
  unitId : String
  state : String
  carryAmount : Int
  carryType : Option String
  facing : ℚ
deriving DecidableEq, Repr

/-- The building part of a snapshot entry. -/
structure SerBuilding where
  buildingId : String
  buildProgress : ℚ
  isComplete : Bool
  farmFoodRemaining : Int
  trainingQueue : List QueueItem
  researchQueue : List ResearchItem
deriving DecidableEq, Repr

/-- One entry of the flat `{nextEntityId, entities: [...]}` snapshot that
`serialize` emits and `deserialize` consumes. -/
structure SerializedEntity where
  sid : Nat
  owner : Int
  type : EntityType
  pos : Option (ℚ × ℚ)
  hp : Option (Int × Int)
  unit : Option SerUnit
  building : Option SerBuilding
  resource : Option (String × Int)
deriving DecidableEq, Repr

/-- Processing of one snapshot entry inside `deserialize`'s loop; note the
spatial registration at the end: a single `addToSpatialGrid` at the
entity's position, for buildings as well. -/
def deserializeEntry (UNITS : String → Option UnitData)
    (BUILDINGS : String → Option BuildingData) (s : EMState)
    (e : SerializedEntity) : EMState :=
  let s := { s with entities := fun k =>
    if k = e.sid then some ⟨e.owner, e.type⟩ else s.entities k }
  let s := match e.pos with
    | none => s
    | some p => { s with positions := fun k =>
        if k = e.sid then some ⟨p.1, p.2, p.1, p.2⟩ else s.positions k }
  let s := match e.hp with
    | none => s
    | some hpPair => { s with health := fun k =>
        if k = e.sid then some ⟨hpPair.1, hpPair.2⟩ else s.health k }
  let s := match e.unit with
    | none => s
    | some u =>
        match UNITS u.unitId with
        | none => s
        | some data =>
            let comp : UnitComponent :=
              ⟨data, u.state, none, none, [], 0, 0, 0, u.carryAmount, u.carryType,
                none, [], 0, u.facing⟩
            { s with units := mapSet s.units e.sid comp }
  let s := match e.building with
    | none => s
    | some b =>
        match BUILDINGS b.buildingId with
        | none => s
        | some data =>
            let comp : BuildingComponent :=
              ⟨data, b.buildProgress, b.isComplete, b.trainingQueue, b.researchQueue,
                none, [], b.farmFoodRemaining⟩
            { s with buildings := mapSet s.buildings e.sid comp }
  let s := match e.resource with
    | none => s
    | some r => { s with resources := fun k =>
        if k = e.sid then some ⟨r.1, r.2⟩ else s.resources k }
  match e.pos with
  | none => s
  | some p => { s with spatialGrid := addToSpatialGrid s.spatialGrid e.sid p.1 p.2 }

/-- `deserialize(data)`: `init()`, restore `nextEntityId`, then process
every snapshot entry in order. -/
def deserialize (UNITS : String → Option UnitData)
    (BUILDINGS : String → Option BuildingData) (nextId : Nat)
    (entries : List SerializedEntity) : EMState :=
  entries.foldl (deserializeEntry UNITS BUILDINGS) { init with nextEntityId := nextId }

end EntityManager

namespace BuildingSystem

/-! ## Building system (`BuildingSystem`) -/

/-- Player resource pool (`game.state.players.get(id).resources`), read
and written by string key with a `?? 0` default. -/
structure Player where
  resources : String → Int

/-- `canAfford`: every cost entry is covered by the player's pool. -/
def canAfford (player : Player) (cost : List (String × Int)) : Bool :=
  cost.all (fun e => decide (e.2 ≤ player.resources e.1))

/-- `deductCost`: subtracts each cost entry, with no affordability
check of its own. -/
def deductCost (player : Player) (cost : List (String × Int)) : Player :=
  ⟨cost.foldl
    (fun res e => fun k => if k = e.1 then res e.1 - e.2 else res k)
    player.resources⟩

/-- `BuildingSystem.trainUnit`: checks building completeness, the
building's `trains` list, the unit's existence, the population cap and
affordability; then *deducts the cost* and finally calls
`EntityManager.addToTrainingQueue`, whose own checks (notably the
15-item queue cap) can still fail after the deduction. -/
def trainUnit (UNITS : String → Option EntityManager.UnitData)
    (buildingId : Nat) (unitId : String) (playerId : Int)
    (em : EntityManager.EMState) (players : Int → Option Player) :
    Bool × EntityManager.EMState × (Int → Option Player) :=
  match EntityManager.mapGet em.buildings buildingId with
  | none => (false, em, players)
  | some building =>
      if ¬ building.isComplete then (false, em, players)
      else if ¬ (building.data.trains.getD []).contains unitId then (false, em, players)
      else
        match UNITS unitId with
        | none => (false, em, players)
        | some unitData =>
            let pop := EntityManager.getPopulation em playerId
            let popCap := EntityManager.getPopulationCap em playerId
            if pop + unitData.populationCost.getD 1 > popCap then (false, em, players)
            else
              match players playerId with
              | none => (false, em, players)
              | some player =>
                  if ¬ canAfford player unitData.cost then (false, em, players)
                  else
                    let players2 : Int → Option Player := fun k =>
                      if k = playerId then some (deductCost player unitData.cost)
                      else players k
                    let r := EntityManager.addToTrainingQueue UNITS buildingId unitId em
                    (r.1, r.2, players2)

/-- `processTrainingQueue` restricted to its queue effect: advance the
head item by `dt/1000` seconds; on completion pop it and (when the
building has a position) spawn its unit — the spawn-position spiral and
the rally move do not touch the queue.  Returns the new component and the
spawned unit id, if any. -/
def processTrainingQueue (hasPos : Bool)
    (b : EntityManager.BuildingComponent) (dt : ℚ) :
    EntityManager.BuildingComponent × Option String :=
  match b.trainingQueue with
  | [] => (b, none)
  | current :: rest =>
      let p2 := current.progress + dt / 1000
      if p2 ≥ current.totalTime then
        ({ b with trainingQueue := rest }, if hasPos then some current.unitId else none)
      else
        ({ b with trainingQueue := { current with progress := p2 } :: rest }, none)

/-- Iterated `processTrainingQueue` over `n` updates, collecting the
spawned unit ids in order. -/
def runTrainingQueue (hasPos : Bool) :
    Nat → EntityManager.BuildingComponent → ℚ →
    EntityManager.BuildingComponent × List String
  | 0, b, _ => (b, [])
  | n + 1, b, dt =>
      let r := processTrainingQueue hasPos b dt
      let r2 := runTrainingQueue hasPos n r.1 dt
      (r2.1, r.2.toList ++ r2.2)

end BuildingSystem

namespace FogOfWar

/-! ## Fog of war (`FogOfWar`)

The per-player `Uint8Array` bitmaps (indexed `y*width + x`, written only
at in-bounds indices) are modelled as Boolean functions on tile
coordinates; players absent from `init`'s id list have no bitmaps
(`Map.get` is `undefined`). -/

structure FogState where
  width : Int
  height : Int
  visibility : Int → Option ((Int × Int) → Bool)
  explored : Int → Option ((Int × Int) → Bool)

/-- `init(mapWidth, mapHeight, playerIds)`: zeroed bitmaps for each
listed player. -/
def init (mapWidth mapHeight : Int) (playerIds : List Int) : FogState :=
  { width := mapWidth, height := mapHeight,
    visibility := fun p => if p ∈ playerIds then some (fun _ => false) else none,
    explored := fun p => if p ∈ playerIds then some (fun _ => false) else none }

/-- The `dy` (outer) / `dx` (inner) offsets of `revealCircle`'s loops. -/
def discOffsets (radius : Nat) : List (Int × Int) :=
  (List.range (2 * radius + 1)).flatMap fun (dy : Nat) =>
    (List.range (2 * radius + 1)).map fun (dx : Nat) =>
      ((dx : Int) - radius, (dy : Int) - radius)

/-- One iteration of `revealCircle`'s loops (named for the induction
proofs): skip offsets outside the disc and out-of-bounds tiles, set both
bitmaps otherwise. -/
def revealStep (width height : Int) (cx cy : Int) (radius : Nat)
    (acc : ((Int × Int) → Bool) × ((Int × Int) → Bool)) (d : Int × Int) :
    ((Int × Int) → Bool) × ((Int × Int) → Bool) :=
  if d.1 * d.1 + d.2 * d.2 > (radius : Int) * radius then acc
  else
    let tx := cx + d.1
    let ty := cy + d.2
    if tx < 0 ∨ tx ≥ width ∨ ty < 0 ∨ ty ≥ height then acc
    else
      (fun c => if c = (tx, ty) then true else acc.1 c,
       fun c => if c = (tx, ty) then true else acc.2 c)

/-- `revealCircle`: sets both bitmaps on every in-bounds tile of the disc
`dx² + dy² ≤ r²` around `(cx, cy)`. -/
def revealCircle (width height : Int) (vis exp : (Int × Int) → Bool)
    (cx cy : Int) (radius : Nat) :
    ((Int × Int) → Bool) × ((Int × Int) → Bool) :=
  (discOffsets radius).foldl (revealStep width height cx cy radius) (vis, exp)

inductive FogEntityKind
  | unit (lineOfSight : Option Nat)
  | building
  | resourceNode
deriving DecidableEq, Repr

/-- What `computeVisibility` reads of an entity: owner, position, and the
data deciding its line of sight. -/
structure FogEntity where
  owner : Int
  pos : Option (ℚ × ℚ)
  kind : FogEntityKind
deriving DecidableEq, Repr

/-- `let los = 4; if (unitData) los = unitData.lineOfSight ?? 6; else if
(buildingData) los = 8;`. -/
def losOf : FogEntityKind → Nat
  | .unit l => l.getD 6
  | .building => 8
  | .resourceNode => 4

/-- One iteration of `computeVisibility`'s entity loop (named for the
induction proofs): skip position-less and Gaia entities, skip untracked
owners, otherwise reveal the line-of-sight disc in the owner's bitmaps. -/
def visStep (st : FogState) (e : FogEntity) : FogState :=
  match e.pos with
  | none => st
  | some pos =>
      if e.owner = -1 then st
      else
        match st.visibility e.owner, st.explored e.owner with
        | some vis, some exp =>
            let r := revealCircle st.width st.height vis exp
              (Int.floor pos.1) (Int.floor pos.2) (losOf e.kind)
            { st with
              visibility := fun p => if p = e.owner then some r.1 else st.visibility p,
              explored := fun p => if p = e.owner then some r.2 else st.explored p }
        | _, _ => st

/-- `computeVisibility`: clear every player's `visible` bitmap (keeping
`explored`), then reveal a line-of-sight disc in both bitmaps around each
non-neutral entity's tile for its owner. -/
def computeVisibility (entities : List FogEntity) (s : FogState) : FogState :=
  let cleared : FogState :=
    { s with visibility := fun p => (s.visibility p).map (fun _ => fun _ => false) }
  entities.foldl visStep cleared

/-- `getTileVisibility`: 0 = Hidden, 1 = Explored, 2 = Visible;
out-of-bounds tiles are Hidden and untracked players see everything. -/
def getTileVisibility (s : FogState) (x y : Int) (playerId : Int) : Nat :=
  if x < 0 ∨ x ≥ s.width ∨ y < 0 ∨ y ≥ s.height then 0
  else
    match s.visibility playerId, s.explored playerId with
    | some vis, some exp =>
        if vis (x, y) then 2 else if exp (x, y) then 1 else 0
    | _, _ => 2

/-- The tiles a fog entity reveals for its owner: a Euclidean disc of its
line-of-sight radius around its floored position. -/
def covers (e : FogEntity) (t : Int × Int) : Prop :=
  ∃ pos, e.pos = some pos ∧ e.owner ≠ -1 ∧
    (t.1 - Int.floor pos.1) * (t.1 - Int.floor pos.1) +
      (t.2 - Int.floor pos.2) * (t.2 - Int.floor pos.2) ≤
      (losOf e.kind : Int) * losOf e.kind

instance (e : FogEntity) (t : Int × Int) : Decidable (covers e t) := by
  unfold covers
  cases e.pos <;> simp <;> infer_instance

/-- A sequence of (throttled) recomputes applied to a fog state, each with
the entity list current at that recompute. -/
def applyHistory (history : List (List FogEntity)) (s : FogState) : FogState :=
  history.foldl (fun st es => computeVisibility es st) s

end FogOfWar

/-! ## Concrete stand-in static tables and states for witnesses

The repository's `UNITS`/`BUILDINGS` data files are consumed by the
simulation as read-only lookup tables and are passed as parameters of the
embedded operations; the tables below are concrete instantiations for the
witness evaluations. -/

def UNITS0 : String → Option EntityManager.UnitData := fun u =>
  if u = "villager" then some ⟨"villager", 25, 22, some 1, [("food", 50)]⟩
  else if u = "militia" then
    some ⟨"militia", 40, 21, some 1, [("food", 60), ("gold", 20)]⟩
  else none

def BUILDINGS0 : String → Option EntityManager.BuildingData := fun b =>
  if b = "house" then some ⟨"house", 550, some (2, 2), some 5, none, [("wood", 25)]⟩
  else if b = "barracks" then
    some ⟨"barracks", 1200, some (3, 3), some 10, some ["militia"], [("wood", 175)]⟩
  else none

/-- A manager holding unit 1 at (1,1) and a completed 2×2 house (id 2) at
(2,2). -/
def em10 : EntityManager.EMState :=
  let s1 := ((EntityManager.createUnit UNITS0 "villager" 1 1 1
    EntityManager.init).getD (0, EntityManager.init)).2
  ((EntityManager.createBuilding BUILDINGS0 "house" 1 2 2 true s1).getD (0, s1)).2

def players0 : Int → Option BuildingSystem.Player := fun k =>
  if k = 1 then
    some ⟨fun r => if r = "food" then 100 else if r = "gold" then 100 else 0⟩
  else none

/-- A manager holding one completed barracks (id 1) whose training queue
is already at the 15-item cap. -/
def em3 : EntityManager.EMState :=
  let s1 := ((EntityManager.createBuilding BUILDINGS0 "barracks" 1 0 0 true
    EntityManager.init).getD (0, EntityManager.init)).2
  (List.range 15).foldl
    (fun s _ => (EntityManager.addToTrainingQueue UNITS0 1 "militia" s).2) s1

/-- A completed building with three queued training requests `a`, `b`,
`c` (train times 1 s, 1 s, 2 s). -/
def bC9 : EntityManager.BuildingComponent :=
  ⟨⟨"barracks", 1200, some (3, 3), some 10, some ["militia"], [("wood", 175)]⟩,
    1, true, [⟨"a", 0, 1⟩, ⟨"b", 0, 1⟩, ⟨"c", 0, 2⟩], [], none, [], 0⟩

/-- A house (id 1) created at anchor (3,3): its 2×2 footprint tiles fall
into four distinct spatial cells. -/
def em7 : EntityManager.EMState :=
  ((EntityManager.createBuilding BUILDINGS0 "house" 1 3 3 true
    EntityManager.init).getD (0, EntityManager.init)).2

namespace EntityManager

/-! ### C7: spatial-grid registration -/

def cellCount (g : (Int × Int) → List Nat) (id : Nat) (c : Int × Int) : Nat :=
  (g c).count id

/-- Number of entries for `id` in the cell `c` of the spatial grid. -/
def gridCount (s : EMState) (id : Nat) (c : Int × Int) : Nat :=
  cellCount s.spatialGrid id c

/-- "Registered in exactly one spatial cell consistent with its current
coordinates": one entry in `c0`, none anywhere else. -/
def registeredOnceAt (s : EMState) (id : Nat) (c0 : Int × Int) : Prop :=
  gridCount s id c0 = 1 ∧ ∀ c, c ≠ c0 → gridCount s id c = 0

/-- The spatial-registration invariant: ids at or above `nextEntityId`
are fresh (no position, no grid entries), and every *non-building* entity
with a position is registered exactly once, in the cell of its
coordinates.  (Buildings are exempt: creation registers them once per
footprint tile.) -/
def SpatialInv (s : EMState) : Prop :=
  (∀ id, s.nextEntityId ≤ id →
     s.positions id = none ∧ ∀ c, gridCount s id c = 0) ∧
  (∀ id pos, s.positions id = some pos → mapGet s.buildings id = none →
     registeredOnceAt s id (cellKey pos.x pos.y))

/-- Entry `e` registers one grid record for `id` in cell `c` exactly when
`e` carries `id` and a position whose anchor cell is `c`. -/
def anchorsAt (e : SerializedEntity) (id : Nat) (c : Int × Int) : Bool :=
  match e.pos with
  | none => false
  | some p => decide (e.sid = id) && decide (c = cellKey p.1 p.2)

end EntityManager

/-- A freshly created villager (id 1) at (3,3), from `createUnit` on the
initial manager. -/
def em7u : Nat × EntityManager.EMState :=
  (EntityManager.createUnit UNITS0 "villager" 1 3 3 EntityManager.init).getD
    (0, EntityManager.init)

namespace FogOfWar

/-- A reveal-loop offset `d` writes tile `c`: inside the disc, `c` is the
offset tile, and `c` is in bounds. -/
def revealHit (width height cx cy : Int) (radius : Nat) (d : Int × Int)
    (c : Int × Int) : Prop :=
  d.1 * d.1 + d.2 * d.2 ≤ (radius : Int) * radius ∧
  c = (cx + d.1, cy + d.2) ∧
  0 ≤ c.1 ∧ c.1 < width ∧ 0 ≤ c.2 ∧ c.2 < height

/-- Tile `t` is covered for player `p` by entity list `es`: an entity
owned by `p` has a position whose line-of-sight disc contains the
in-bounds tile `t`. -/
def coveredIn (es : List FogEntity) (p : Int) (width height : Int)
    (t : Int × Int) : Prop :=
  ∃ e ∈ es, e.owner = p ∧ covers e t ∧
    0 ≤ t.1 ∧ t.1 < width ∧ 0 ≤ t.2 ∧ t.2 < height

end FogOfWar

/-- A player-1 unit standing at (2,2) with line of sight 1. -/
def fogE0 : FogOfWar.FogEntity := ⟨1, some (2, 2), .unit (some 1)⟩

namespace Q2

theorem negVal_iff (x y : Int) :
    negVal x y = true ↔ (x : ℝ) + (y : ℝ) * Real.sqrt 2 < 0 := by
  have hs0 : (0 : ℝ) < Real.sqrt 2 := Real.sqrt_pos.mpr (by norm_num)
  have hs2 : Real.sqrt 2 * Real.sqrt 2 = 2 := Real.mul_self_sqrt (by norm_num)
  unfold negVal
  constructor
  · intro hb
    rcases Bool.or_eq_true_iff.mp hb with h | h
    · have hx : x < 0 := by
        have := (Bool.and_eq_true_iff.mp h).1
        exact_mod_cast of_decide_eq_true this
      rcases Bool.or_eq_true_iff.mp (Bool.and_eq_true_iff.mp h).2 with h2 | h2
      · have hy : y < 0 := of_decide_eq_true h2
        have hxr : (x : ℝ) < 0 := by exact_mod_cast hx
        have hyr : (y : ℝ) < 0 := by exact_mod_cast hy
        nlinarith [mul_neg_of_neg_of_pos hyr hs0]
      · have hyy : 2 * y * y < x * x := of_decide_eq_true h2
        have hr : 2 * (y : ℝ) * y < (x : ℝ) * x := by exact_mod_cast hyy
        have hxr : (x : ℝ) < 0 := by exact_mod_cast hx
        -- y·√2 < −x since (y·√2)² = 2y² < x² and −x > 0
        nlinarith [sq_nonneg ((y : ℝ) * Real.sqrt 2 + x), sq_nonneg ((y : ℝ) * Real.sqrt 2 - x),
          mul_pos hs0 hs0]
    · have hx : 0 ≤ x := of_decide_eq_true (Bool.and_eq_true_iff.mp (Bool.and_eq_true_iff.mp h).1).1
      have hy : y < 0 := of_decide_eq_true (Bool.and_eq_true_iff.mp (Bool.and_eq_true_iff.mp h).1).2
      have hyy : x * x < 2 * y * y := of_decide_eq_true (Bool.and_eq_true_iff.mp h).2
      have hxr : (0 : ℝ) ≤ x := by exact_mod_cast hx
      have hyr : (y : ℝ) < 0 := by exact_mod_cast hy
      have hr : (x : ℝ) * x < 2 * (y : ℝ) * y := by exact_mod_cast hyy
      nlinarith [mul_pos hs0 hs0, mul_neg_of_neg_of_pos hyr hs0]
  · intro hr
    by_cases hx : x < 0
    · by_cases hy : y < 0
      · simp [hx, hy]
      · push_neg at hy
        have : 2 * y * y < x * x := by
          have hxr : (x : ℝ) < 0 := by exact_mod_cast hx
          have hyr : (0 : ℝ) ≤ y := by exact_mod_cast hy
          have h1 : (y : ℝ) * Real.sqrt 2 < -x := by linarith
          have h2 : (0 : ℝ) ≤ (y : ℝ) * Real.sqrt 2 := by positivity
          have h3 : ((y : ℝ) * Real.sqrt 2) * ((y : ℝ) * Real.sqrt 2) < (-x) * (-x) := by
            nlinarith
          have h4 : 2 * (y : ℝ) * y < (x : ℝ) * x := by nlinarith
          exact_mod_cast h4
        simp [hx, this]
    · push_neg at hx
      have hy : y < 0 := by
        by_contra hy
        push_neg at hy
        have hxr : (0 : ℝ) ≤ x := by exact_mod_cast hx
        have hyr : (0 : ℝ) ≤ y := by exact_mod_cast hy
        nlinarith [mul_nonneg hyr hs0.le]
      have : x * x < 2 * y * y := by
        have hxr : (0 : ℝ) ≤ x := by exact_mod_cast hx
        have hyr : (y : ℝ) < 0 := by exact_mod_cast hy
        have h1 : (x : ℝ) < (-y) * Real.sqrt 2 := by nlinarith
        have h3 : (x : ℝ) * x < ((-y) * Real.sqrt 2) * ((-y) * Real.sqrt 2) := by nlinarith
        have h4 : (x : ℝ) * x < 2 * (y : ℝ) * y := by nlinarith
        exact_mod_cast h4
      simp [hy, this, hx, not_lt.mpr hx]

theorem lt_iff_toReal (p q : Q2) : lt p q = true ↔ toReal p < toReal q := by
  unfold lt toReal
  rw [negVal_iff]
  push_cast
  constructor <;> intro h <;> nlinarith [h]

end Q2

namespace Utils

theorem stepOk_iff {walk : Int → Int → Bool} {w h : Int} {a b : Int × Int} :
    stepOk walk w h a b = true ↔
      (b.1 - a.1, b.2 - a.2) ∈ neighborOffsets ∧
      (0 ≤ b.1 ∧ b.1 < w ∧ 0 ≤ b.2 ∧ b.2 < h) ∧
      walk b.1 b.2 = true ∧
      ((b.1 - a.1 ≠ 0 ∧ b.2 - a.2 ≠ 0) →
        walk b.1 a.2 = true ∧ walk a.1 b.2 = true) := by
  simp only [stepOk, Bool.and_eq_true, Bool.or_eq_true, Bool.not_eq_true',
    decide_eq_true_iff, decide_eq_false_iff_not]
  tauto

theorem extractLowest_mem (b : PathNode) (l : List PathNode) :
    ∀ n, (n = (extractLowest b l).1 ∨ n ∈ (extractLowest b l).2) →
      n = b ∨ n ∈ l := by
  induction l generalizing b with
  | nil => simp [extractLowest]
  | cons hd tl ih =>
    intro n hn
    unfold extractLowest at hn
    by_cases hc : Q2.lt hd.f b.f = true
    · simp only [hc, if_pos] at hn
      rcases hn with hn | hn
      · rcases ih hd n (.inl hn) with h | h
        · right; simp [h]
        · right; simp [h]
      · rcases List.mem_cons.mp hn with h | h
        · left; exact h
        · rcases ih hd n (.inr h) with h2 | h2
          · right; simp [h2]
          · right; simp [h2]
    · simp only [hc, if_neg, Bool.false_eq_true, not_false_iff] at hn
      rcases hn with hn | hn
      · rcases ih b n (.inl hn) with h | h
        · left; exact h
        · right; simp [h]
      · rcases List.mem_cons.mp hn with h | h
        · right; simp [h]
        · rcases ih b n (.inr h) with h2 | h2
          · left; exact h2
          · right; simp [h2]

theorem insertOrImprove_nodeOk {walk : Int → Int → Bool} {w h : Int}
    {start : Int × Int} (node : PathNode) (l : List PathNode)
    (hnode : nodeOk walk w h start node)
    (hl : ∀ n ∈ l, nodeOk walk w h start n) :
    ∀ n ∈ insertOrImprove node l, nodeOk walk w h start n := by
  induction l with
  | nil =>
    intro n hn
    simp only [insertOrImprove, List.mem_singleton] at hn
    subst hn; exact hnode
  | cons hd tl ih =>
    intro n hn
    unfold insertOrImprove at hn
    by_cases hc : hd.x = node.x ∧ hd.y = node.y
    · simp only [if_pos hc] at hn
      by_cases hg : Q2.lt node.g hd.g = true
      · simp only [hg, if_pos] at hn
        rcases List.mem_cons.mp hn with h | h
        · subst h
          refine ⟨?_, ?_, ?_⟩
          · simpa [hc.1, hc.2] using hnode.1
          · exact hnode.2.1
          · exact hnode.2.2
        · exact hl n (List.mem_cons_of_mem hd h)
      · simp only [hg, if_neg, Bool.false_eq_true, not_false_iff] at hn
        rcases List.mem_cons.mp hn with h | h
        · exact h ▸ hl hd (List.mem_cons_self _ _)
        · exact hl n (List.mem_cons_of_mem hd h)
    · simp only [if_neg hc] at hn
      rcases List.mem_cons.mp hn with h | h
      · exact h ▸ hl hd (List.mem_cons_self _ _)
      · exact ih (fun m hm => hl m (List.mem_cons_of_mem hd hm)) n h

theorem expand_nodeOk {walk : Int → Int → Bool} {w h : Int}
    {start goal : Int × Int} (closed : List (Int × Int)) (cur : PathNode)
    (openSet : List PathNode) (hcur : nodeOk walk w h start cur)
    (hopen : ∀ n ∈ openSet, nodeOk walk w h start n) :
    ∀ n ∈ expand walk w h goal closed cur openSet,
      nodeOk walk w h start n := by
  unfold expand
  have main : ∀ ds : List (Int × Int), (∀ d ∈ ds, d ∈ neighborOffsets) →
      ∀ acc : List PathNode, (∀ n ∈ acc, nodeOk walk w h start n) →
      ∀ n ∈ ds.foldl
        (fun acc d =>
          let nx := cur.x + d.1
          let ny := cur.y + d.2
          if nx < 0 ∨ nx ≥ w ∨ ny < 0 ∨ ny ≥ h then acc
          else if ¬ walk nx ny then acc
          else if (nx, ny) ∈ closed then acc
          else if d.1 ≠ 0 ∧ d.2 ≠ 0 ∧ (¬ walk (cur.x + d.1) cur.y ∨ ¬ walk cur.x (cur.y + d.2)) then acc
          else
            let moveCost := if d.1 ≠ 0 ∧ d.2 ≠ 0 then Q2.sqrt2 else Q2.one
            let g := cur.g + moveCost
            let hh := heuristic (nx, ny) goal
            insertOrImprove ⟨nx, ny, g, hh, g + hh, (nx, ny) :: cur.trail⟩ acc)
        acc, nodeOk walk w h start n := by
    intro ds
    induction ds with
    | nil => intro _ acc hacc n hn; exact hacc n hn
    | cons d ds ih =>
      intro hds acc hacc
      simp only [List.foldl_cons]
      apply ih (fun d' hd' => hds d' (List.mem_cons_of_mem d hd'))
      show ∀ n ∈ (if cur.x + d.1 < 0 ∨ cur.x + d.1 ≥ w ∨ cur.y + d.2 < 0 ∨ cur.y + d.2 ≥ h then acc
        else if ¬ walk (cur.x + d.1) (cur.y + d.2) then acc
        else if (cur.x + d.1, cur.y + d.2) ∈ closed then acc
        else if d.1 ≠ 0 ∧ d.2 ≠ 0 ∧ (¬ walk (cur.x + d.1) cur.y ∨ ¬ walk cur.x (cur.y + d.2)) then acc
        else insertOrImprove ⟨cur.x + d.1, cur.y + d.2,
          cur.g + (if d.1 ≠ 0 ∧ d.2 ≠ 0 then Q2.sqrt2 else Q2.one),
          heuristic (cur.x + d.1, cur.y + d.2) goal,
          cur.g + (if d.1 ≠ 0 ∧ d.2 ≠ 0 then Q2.sqrt2 else Q2.one) +
            heuristic (cur.x + d.1, cur.y + d.2) goal,
          (cur.x + d.1, cur.y + d.2) :: cur.trail⟩ acc), nodeOk walk w h start n
      by_cases h1 : cur.x + d.1 < 0 ∨ cur.x + d.1 ≥ w ∨ cur.y + d.2 < 0 ∨ cur.y + d.2 ≥ h
      · rw [if_pos h1]; exact hacc
      rw [if_neg h1]
      by_cases h2 : walk (cur.x + d.1) (cur.y + d.2) = true
      case neg => rw [if_pos h2]; exact hacc
      rw [if_neg (not_not_intro h2)]
      by_cases h3 : (cur.x + d.1, cur.y + d.2) ∈ closed
      · rw [if_pos h3]; exact hacc
      rw [if_neg h3]
      by_cases h4 : d.1 ≠ 0 ∧ d.2 ≠ 0 ∧ (¬ walk (cur.x + d.1) cur.y ∨ ¬ walk cur.x (cur.y + d.2))
      · rw [if_pos h4]; exact hacc
      rw [if_neg h4]
      have hstep : stepOk walk w h (cur.x, cur.y) (cur.x + d.1, cur.y + d.2) = true := by
        rw [stepOk_iff]
        dsimp only
        push_neg at h1
        push_neg at h4
        refine ⟨?_, h1, h2, ?_⟩
        · have hd : (cur.x + d.1 - cur.x, cur.y + d.2 - cur.y) = d := by
            rw [Prod.ext_iff]; constructor <;> simp
          rw [hd]
          exact hds d (List.mem_cons_self _ _)
        · intro hdiag
          have hd1 : d.1 ≠ 0 := by
            intro hz; apply hdiag.1; rw [hz]; ring
          have hd2 : d.2 ≠ 0 := by
            intro hz; apply hdiag.2; rw [hz]; ring
          exact h4 hd1 hd2
      obtain ⟨hh1, hh2, hh3⟩ := hcur
      cases htr : cur.trail with
      | nil => rw [htr] at hh1; simp at hh1
      | cons t0 ts =>
        rw [htr] at hh1 hh2 hh3
        have ht0 : t0 = (cur.x, cur.y) := by simpa using hh1
        have hnew : nodeOk walk w h start
            ⟨cur.x + d.1, cur.y + d.2, cur.g + (if d.1 ≠ 0 ∧ d.2 ≠ 0 then Q2.sqrt2 else Q2.one),
              heuristic (cur.x + d.1, cur.y + d.2) goal,
              cur.g + (if d.1 ≠ 0 ∧ d.2 ≠ 0 then Q2.sqrt2 else Q2.one) +
                heuristic (cur.x + d.1, cur.y + d.2) goal,
              (cur.x + d.1, cur.y + d.2) :: t0 :: ts⟩ := by
          refine ⟨rfl, ?_, ?_⟩
          · show ((cur.x + d.1, cur.y + d.2) :: t0 :: ts).getLast? = some start
            rw [List.getLast?_cons_cons]; exact hh2
          · show List.Chain' _ ((cur.x + d.1, cur.y + d.2) :: t0 :: ts)
            rw [List.chain'_cons]
            exact ⟨by rw [ht0]; exact hstep, hh3⟩
        exact insertOrImprove_nodeOk _ acc hnew hacc
  intro n hn
  exact main neighborOffsets (fun d hd => hd) openSet hopen n hn

/-- Any path returned by the A* loop starts at `start`, ends at the goal
that the loop was launched with, and is a chain of legal moves. -/
theorem astarLoop_sound {walk : Int → Int → Bool} {w h : Int}
    {start e : Int × Int} :
    ∀ (fuel : Nat) (openSet : List PathNode) (closed : List (Int × Int))
      (p : List (Int × Int)),
      (∀ n ∈ openSet, nodeOk walk w h start n) →
      astarLoop walk w h e fuel openSet closed = some p →
      p.head? = some start ∧ p.getLast? = some e ∧
      List.Chain' (fun a b => stepOk walk w h a b = true) p := by
  intro fuel
  induction fuel with
  | zero =>
    intro openSet closed p _ hrun
    cases openSet with
    | nil => simp [astarLoop] at hrun
    | cons o os => simp [astarLoop] at hrun
  | succ fuel ih =>
    intro openSet closed p hopen hrun
    cases openSet with
    | nil => simp [astarLoop] at hrun
    | cons o os =>
      unfold astarLoop at hrun
      by_cases hg : (extractLowest o os).1.x = e.1 ∧ (extractLowest o os).1.y = e.2
      · simp only [if_pos hg, Option.some.injEq] at hrun
        subst hrun
        have hsel : nodeOk walk w h start (extractLowest o os).1 := by
          rcases extractLowest_mem o os _ (.inl rfl) with hh | hh
          · rw [hh]; exact hopen o (List.mem_cons_self _ _)
          · exact hopen _ (List.mem_cons_of_mem o hh)
        obtain ⟨hh1, hh2, hh3⟩ := hsel
        refine ⟨?_, ?_, ?_⟩
        · rw [List.head?_reverse]; exact hh2
        · rw [List.getLast?_reverse, hh1, hg.1, hg.2]
        · rw [List.chain'_reverse]
          exact hh3.imp (fun _ _ hab => hab)
      · simp only [if_neg hg] at hrun
        apply ih _ _ p _ hrun
        apply expand_nodeOk
        · rcases extractLowest_mem o os _ (.inl rfl) with hh | hh
          · rw [hh]; exact hopen o (List.mem_cons_self _ _)
          · exact hopen _ (List.mem_cons_of_mem o hh)
        · intro n hn
          rcases extractLowest_mem o os n (.inr hn) with hh | hh
          · rw [hh]; exact hopen o (List.mem_cons_self _ _)
          · exact hopen _ (List.mem_cons_of_mem o hh)

/-- Soundness of `findPath`: a returned path starts at `start`, ends at
the effective goal, and every step is a legal 8-neighbour move (with the
no-corner-cutting rule for diagonals). -/
theorem findPath_sound {start goal : Int × Int} {walk : Int → Int → Bool}
    {w h : Int} {maxIterations : Nat} {p : List (Int × Int)}
    (hrun : findPath start goal walk w h maxIterations = some p) :
    ∃ e, effectiveGoal goal walk w h = some e ∧
      p.head? = some start ∧ p.getLast? = some e ∧
      List.Chain' (fun a b => stepOk walk w h a b = true) p := by
  unfold findPath at hrun
  cases heg : effectiveGoal goal walk w h with
  | none => rw [heg] at hrun; exact absurd hrun (by simp)
  | some e =>
    rw [heg] at hrun
    refine ⟨e, rfl, ?_⟩
    apply astarLoop_sound maxIterations _ [] p _ hrun
    intro n hn
    simp only [List.mem_singleton] at hn
    subst hn
    exact ⟨rfl, rfl, by simp⟩

theorem mem_squareOffsets {r : Nat} {d : Int × Int} :
    d ∈ squareOffsets r ↔ d.1.natAbs ≤ r ∧ d.2.natAbs ≤ r := by
  obtain ⟨dx, dy⟩ := d
  unfold squareOffsets
  constructor
  · intro hmem
    obtain ⟨i, hi, hin⟩ := List.mem_flatMap.mp hmem
    obtain ⟨j, hj, heq⟩ := List.mem_map.mp hin
    rw [List.mem_range] at hi hj
    rw [Prod.mk.injEq] at heq
    obtain ⟨h1, h2⟩ := heq
    show dx.natAbs ≤ r ∧ dy.natAbs ≤ r
    constructor <;> omega
  · rintro ⟨h1, h2⟩
    apply List.mem_flatMap.mpr
    refine ⟨(dx + r).toNat, List.mem_range.mpr (by omega), ?_⟩
    apply List.mem_map.mpr
    refine ⟨(dy + r).toNat, List.mem_range.mpr (by omega), ?_⟩
    rw [Prod.mk.injEq]
    show ((((dx + r).toNat : Nat) : Int) - r = dx) ∧ ((((dy + r).toNat : Nat) : Int) - r = dy)
    constructor <;> omega

theorem findNearestWalkableAux_none {pos : Int × Int} {walk : Int → Int → Bool}
    {w h : Int} {radii : List Nat}
    (hrun : findNearestWalkableAux pos walk w h radii = none) :
    ∀ r ∈ radii, ∀ d ∈ squareOffsets r,
      nearCandidate walk w h (pos.1 + d.1, pos.2 + d.2) = false := by
  induction radii with
  | nil => simp
  | cons r rs ih =>
    unfold findNearestWalkableAux at hrun
    cases hf : (squareOffsets r).find?
        (fun d => nearCandidate walk w h (pos.1 + d.1, pos.2 + d.2)) with
    | some d => rw [hf] at hrun; exact absurd hrun (by simp)
    | none =>
      rw [hf] at hrun
      intro r' hr' d hd
      rcases List.mem_cons.mp hr' with hr' | hr'
      · subst hr'
        have := List.find?_eq_none.mp hf d hd
        simpa using this
      · exact ih hrun r' hr' d hd

theorem findNearestWalkableAux_some {pos : Int × Int} {walk : Int → Int → Bool}
    {w h : Int} {radii : List Nat} {q : Int × Int}
    (hp : List.Pairwise (· < ·) radii)
    (hrun : findNearestWalkableAux pos walk w h radii = some q) :
    nearCandidate walk w h q = true ∧
    ∃ r ∈ radii, chebDist q pos ≤ r ∧
      ∀ r' ∈ radii, r' < r → ∀ d ∈ squareOffsets r',
        nearCandidate walk w h (pos.1 + d.1, pos.2 + d.2) = false := by
  induction radii with
  | nil => simp [findNearestWalkableAux] at hrun
  | cons r rs ih =>
    unfold findNearestWalkableAux at hrun
    cases hf : (squareOffsets r).find?
        (fun d => nearCandidate walk w h (pos.1 + d.1, pos.2 + d.2)) with
    | some d =>
      rw [hf] at hrun
      simp only [Option.some.injEq] at hrun
      subst hrun
      have hcand : nearCandidate walk w h (pos.1 + d.1, pos.2 + d.2) = true := by
        have := List.find?_some hf
        simpa using this
      have hmem : d ∈ squareOffsets r := List.mem_of_find?_eq_some hf
      have hbd := mem_squareOffsets.mp hmem
      refine ⟨hcand, r, List.mem_cons_self _ _, ?_, ?_⟩
      · unfold chebDist
        have e1 : pos.1 + d.1 - pos.1 = d.1 := by ring
        have e2 : pos.2 + d.2 - pos.2 = d.2 := by ring
        simp only [e1, e2]
        omega
      · intro r' hr' hlt d' hd'
        rcases List.mem_cons.mp hr' with hr' | hr'
        · omega
        · have := (List.pairwise_cons.mp hp).1 r' hr'
          omega
    | none =>
      rw [hf] at hrun
      obtain ⟨hcand, r0, hr0, hch, hmin⟩ := ih (List.pairwise_cons.mp hp).2 hrun
      refine ⟨hcand, r0, List.mem_cons_of_mem r hr0, hch, ?_⟩
      intro r' hr' hlt d' hd'
      rcases List.mem_cons.mp hr' with hr' | hr'
      · subst hr'
        have := List.find?_eq_none.mp hf d' hd'
        simpa using this
      · exact hmin r' hr' hlt d' hd'

theorem radii_list_mem {m : Nat} :
    m ∈ (List.range 9).map (· + 1) ↔ 1 ≤ m ∧ m ≤ 9 := by
  simp only [List.mem_map, List.mem_range]
  constructor
  · rintro ⟨i, hi, rfl⟩; omega
  · rintro ⟨h1, h2⟩; exact ⟨m - 1, by omega, by omega⟩

/-- A successful nearest-walkable search returns an in-bounds walkable
tile at minimal Chebyshev distance from `pos` (up to the radius-1 floor of
the scan, which starts at radius 1). -/
theorem findNearestWalkable_spec {pos : Int × Int} {walk : Int → Int → Bool}
    {w h : Int} {q : Int × Int}
    (hrun : findNearestWalkable pos walk w h = some q) :
    nearCandidate walk w h q = true ∧
    ∀ t, nearCandidate walk w h t = true →
      chebDist q pos ≤ max 1 (chebDist t pos) := by
  have hpw : List.Pairwise (· < ·) ((List.range 9).map (· + 1)) := by decide
  obtain ⟨hcand, r, hr, hch, hmin⟩ := findNearestWalkableAux_some hpw hrun
  refine ⟨hcand, ?_⟩
  intro t ht
  rcases Nat.lt_or_ge r 2 with hr2 | hr2
  · have : chebDist q pos ≤ 1 := by omega
    omega
  · by_cases hct : chebDist t pos ≤ r - 1
    · exfalso
      have hrm := radii_list_mem.mp hr
      have hr1 : r - 1 ∈ (List.range 9).map (· + 1) := radii_list_mem.mpr (by omega)
      have hd : (t.1 - pos.1, t.2 - pos.2) ∈ squareOffsets (r - 1) := by
        rw [mem_squareOffsets]
        unfold chebDist at hct
        constructor <;> simp <;> omega
      have := hmin (r - 1) hr1 (by omega) _ hd
      have he : (pos.1 + (t.1 - pos.1), pos.2 + (t.2 - pos.2)) = t := by
        rw [Prod.ext_iff]; constructor <;> simp
      rw [he, ht] at this
      simp at this
    · omega

/-- A failed nearest-walkable search means no in-bounds walkable tile
exists within Chebyshev radius 9 of `pos`. -/
theorem findNearestWalkable_none_spec {pos : Int × Int} {walk : Int → Int → Bool}
    {w h : Int} (hrun : findNearestWalkable pos walk w h = none) :
    ∀ t, chebDist t pos ≤ 9 → nearCandidate walk w h t = false := by
  intro t ht
  have hall := findNearestWalkableAux_none hrun
  have hr9 : (9 : Nat) ∈ (List.range 9).map (· + 1) := by decide
  have hd : (t.1 - pos.1, t.2 - pos.2) ∈ squareOffsets 9 := by
    rw [mem_squareOffsets]
    unfold chebDist at ht
    exact ⟨by omega, by omega⟩
  have hfail := hall 9 hr9 _ hd
  have he : (pos.1 + (t.1 - pos.1), pos.2 + (t.2 - pos.2)) = t := by
    rw [Prod.ext_iff]; constructor <;> simp
  rwa [he] at hfail

end Utils

theorem foldl_add_eq_sum {α : Type} (f : α → Int) (l : List α) (init : Int) :
    l.foldl (fun acc e => acc + f e) init = init + (l.map f).sum := by
  induction l generalizing init with
  | nil => simp
  | cons e l ih => simp only [List.foldl_cons, List.map_cons, List.sum_cons, ih]; ring

theorem map_ite_sum {α : Type} (p : α → Bool) (f : α → Int) (l : List α) :
    (l.map (fun e => if p e then f e else 0)).sum = ((l.filter p).map f).sum := by
  induction l with
  | nil => rfl
  | cons e l ih => by_cases hp : p e <;> simp [hp, ih]

/-- **C1**: the simulation is *not* deterministic in the seeded generator:
`attemptConversion` draws from the unseeded `Math.random()`, so with the
seeded state and tick fixed, two runs whose environment draws differ
produce different conversion outcomes; and `handleEntityKill` schedules
dead-unit removal at kill-time + 1500 wall-clock milliseconds, a function
of wall-clock time rather than of the tick counter.  This refutes the
claim that conversion attempts and dead-unit removal timing are functions
of the seeded state and tick count. -/
theorem C1_conversion_unseeded_and_removal_wall_clock :
    CombatSystem.attemptConversion (1 / 100) true = true ∧
    CombatSystem.attemptConversion (1 / 2) true = false ∧
    CombatSystem.deadUnitRemovalWallClockMs 0 ≠
      CombatSystem.deadUnitRemovalWallClockMs 700 := by
  refine ⟨?_, ?_, ?_⟩ <;>
    norm_num [CombatSystem.attemptConversion, CombatSystem.deadUnitRemovalWallClockMs]

/-- **C2, counterexample**: with attack 5, no bonus damage, armor 0 and a
target at 1 hp, the hp is reduced by 1 (clamped at 0), not by
`max 1 (base − armor) = 5`: the claim's "reduces hp by exactly
`max(1, base − armor)`" fails on overkill because `EntityManager.damage`
clamps hp at 0. -/
theorem C2_counterexample :
    (CombatSystem.dealDamage ⟨5, 0, 0, 0, .infantry, none⟩
        (CombatSystem.Target.unit ⟨0, 0, 0, 0, .infantry, none⟩) 1).1 ≠
      1 - max 1 (CombatSystem.baseDamage ⟨5, 0, 0, 0, .infantry, none⟩
          (CombatSystem.Target.unit ⟨0, 0, 0, 0, .infantry, none⟩) -
        CombatSystem.armorOf ⟨5, 0, 0, 0, .infantry, none⟩
          (CombatSystem.Target.unit ⟨0, 0, 0, 0, .infantry, none⟩)) := by
  decide

/-- **C2, amended**: `dealDamage` computes base as attack plus the sum of
bonus damage over entries the target matches, selects pierce armor iff
the attacker's range exceeds 1 (melee otherwise), and sets the target's
hp to `max 0 (hp − max 1 (base − armor))`: the damage applied is always at
least 1, so any target with positive hp strictly loses hp, but the hp
reduction is capped by the remaining hp (never below 0) rather than being
exactly `max 1 (base − armor)`. -/
theorem C2_deal_damage_amended :
    ∀ (attacker : CombatSystem.UnitStats) (target : CombatSystem.Target) (hp : Int),
      (CombatSystem.dealDamage attacker target hp).1 =
        max 0 (hp - max 1 (CombatSystem.baseDamage attacker target -
          CombatSystem.armorOf attacker target)) ∧
      1 ≤ CombatSystem.finalDamage attacker target ∧
      (0 < hp → (CombatSystem.dealDamage attacker target hp).1 < hp) ∧
      (∀ ts, target = CombatSystem.Target.unit ts →
        CombatSystem.baseDamage attacker target =
          attacker.attack +
            (((attacker.bonusDamage.getD []).filter
                (fun e => CombatSystem.matchesCategory ts.category e.1)).map Prod.snd).sum ∧
        CombatSystem.armorOf attacker target =
          (if attacker.range > 1 then ts.pierceArmor else ts.meleeArmor)) := by
  intro attacker target hp
  have hfinal : 1 ≤ CombatSystem.finalDamage attacker target := le_max_left _ _
  refine ⟨rfl, hfinal, ?_, ?_⟩
  · intro hhp
    show (CombatSystem.damage hp (CombatSystem.finalDamage attacker target)).1 < hp
    unfold CombatSystem.damage
    dsimp only
    omega
  · rintro ts rfl
    constructor
    · unfold CombatSystem.baseDamage
      cases hbd : attacker.bonusDamage with
      | none => simp
      | some entries =>
        dsimp only
        rw [foldl_add_eq_sum (CombatSystem.bonusFor (CombatSystem.Target.unit ts)) entries]
        have hmap : entries.map (CombatSystem.bonusFor (CombatSystem.Target.unit ts)) =
            entries.map (fun e =>
              if CombatSystem.matchesCategory ts.category e.1 then e.2 else 0) := by
          apply List.map_congr_left
          intro e _
          unfold CombatSystem.bonusFor
          dsimp only
          ring
        rw [hmap, map_ite_sum]
        simp
    · rfl

/-- Witness for the amended C2: attack 5 plus a matching +3 cavalry bonus
against a 0-armor cavalry unit at 10 hp deals 8, leaving 2 hp; all
conjuncts of the amended statement hold there. -/
theorem C2_deal_damage_amended_witness :
    (CombatSystem.dealDamage ⟨5, 0, 0, 0, .infantry, some [("cavalry", 3)]⟩
        (CombatSystem.Target.unit ⟨0, 2, 4, 0, .cavalry, none⟩) 10).1 =
      max 0 (10 - max 1 (CombatSystem.baseDamage
          ⟨5, 0, 0, 0, .infantry, some [("cavalry", 3)]⟩
          (CombatSystem.Target.unit ⟨0, 2, 4, 0, .cavalry, none⟩) -
        CombatSystem.armorOf ⟨5, 0, 0, 0, .infantry, some [("cavalry", 3)]⟩
          (CombatSystem.Target.unit ⟨0, 2, 4, 0, .cavalry, none⟩))) ∧
    (CombatSystem.dealDamage ⟨5, 0, 0, 0, .infantry, some [("cavalry", 3)]⟩
        (CombatSystem.Target.unit ⟨0, 2, 4, 0, .cavalry, none⟩) 10).1 < 10 ∧
    CombatSystem.baseDamage ⟨5, 0, 0, 0, .infantry, some [("cavalry", 3)]⟩
        (CombatSystem.Target.unit ⟨0, 2, 4, 0, .cavalry, none⟩) =
      5 + ((([("cavalry", (3 : Int))]).filter
          (fun e => CombatSystem.matchesCategory .cavalry e.1)).map Prod.snd).sum := by
  have h := C2_deal_damage_amended ⟨5, 0, 0, 0, .infantry, some [("cavalry", 3)]⟩
    (CombatSystem.Target.unit ⟨0, 2, 4, 0, .cavalry, none⟩) 10
  exact ⟨h.1, h.2.2.1 (by decide), (h.2.2.2 ⟨0, 2, 4, 0, .cavalry, none⟩ rfl).1⟩

/-- **C4**: the pathfinder expands 8-directionally with move cost 1 for
orthogonal and √2 for diagonal steps and forbids corner-cutting.  On a
fully open 8×8 grid `findPath (0,0) (5,5)` returns the 6-tile diagonal
path, whose cost is exactly `5·√2`; and every path ever returned is a
chain of 8-neighbour moves into walkable tiles in which a diagonal step is
taken only when both of its orthogonal neighbour tiles are walkable — so
on a grid with `(1,1)` blocked no returned path moves diagonally through
that gap. -/
theorem C4_pathfinder_diagonal_cost_and_no_corner_cut :
    (Utils.findPath (0, 0) (5, 5) (fun _ _ => true) 8 8 2000 =
        some [(0, 0), (1, 1), (2, 2), (3, 3), (4, 4), (5, 5)] ∧
      Utils.pathCost [(0, 0), (1, 1), (2, 2), (3, 3), (4, 4), (5, 5)] = ⟨0, 5⟩ ∧
      Q2.toReal ⟨0, 5⟩ = 5 * Real.sqrt 2) ∧
    (∀ (start goal : Int × Int) (walk : Int → Int → Bool) (w h : Int)
      (it : Nat) (p : List (Int × Int)),
      Utils.findPath start goal walk w h it = some p →
      List.Chain' (fun a b =>
        (b.1 - a.1, b.2 - a.2) ∈ Utils.neighborOffsets ∧ walk b.1 b.2 = true ∧
          ((b.1 - a.1 ≠ 0 ∧ b.2 - a.2 ≠ 0) →
            walk b.1 a.2 = true ∧ walk a.1 b.2 = true)) p) := by
  refine ⟨⟨by rfl, by decide, ?_⟩, ?_⟩
  · unfold Q2.toReal; push_cast; ring
  · intro start goal walk w h it p hrun
    obtain ⟨e, _, _, _, hchain⟩ := Utils.findPath_sound hrun
    refine hchain.imp (fun a b hab => ?_)
    obtain ⟨h1, _, h3, h4⟩ := Utils.stepOk_iff.mp hab
    exact ⟨h1, h3, h4⟩

/-- Witness for C4 at the grid with only `(1,1)` blocked: `findPath`
returns the detour `[(0,0),(1,0),(2,0),(2,1),(2,2)]` and the theorem's
no-corner-cutting chain applies to it. -/
theorem C4_pathfinder_diagonal_cost_and_no_corner_cut_witness :
    Utils.findPath (0, 0) (2, 2) (fun x y => !(x == 1 && y == 1)) 4 4 2000 =
      some [(0, 0), (1, 0), (2, 0), (2, 1), (2, 2)] ∧
    List.Chain' (fun a b =>
      (b.1 - a.1, b.2 - a.2) ∈ Utils.neighborOffsets ∧
        (fun x y : Int => !(x == 1 && y == 1)) b.1 b.2 = true ∧
        ((b.1 - a.1 ≠ 0 ∧ b.2 - a.2 ≠ 0) →
          (fun x y : Int => !(x == 1 && y == 1)) b.1 a.2 = true ∧
          (fun x y : Int => !(x == 1 && y == 1)) a.1 b.2 = true))
      [(0, 0), (1, 0), (2, 0), (2, 1), (2, 2)] :=
  ⟨by rfl,
    C4_pathfinder_diagonal_cost_and_no_corner_cut.2 (0, 0) (2, 2)
      (fun x y => !(x == 1 && y == 1)) 4 4 2000
      [(0, 0), (1, 0), (2, 0), (2, 1), (2, 2)] (by rfl)⟩

/-- **C5**: when the goal tile is not walkable, `findPath` first searches
outward in expanding squares (radius 1..9) for the nearest walkable tile:
if none exists within the bounded radius it returns `none`; otherwise it
paths to the substitute goal instead.  The substitute is an in-bounds
walkable tile of minimal Chebyshev distance from the goal (up to the
radius-1 floor of the scan), and a failed search means no in-bounds
walkable tile exists within radius 9. -/
theorem C5_unwalkable_goal_substitution :
    (∀ (start goal : Int × Int) (walk : Int → Int → Bool) (w h : Int) (it : Nat),
       walk goal.1 goal.2 = false →
       Utils.findNearestWalkable goal walk w h = none →
       Utils.findPath start goal walk w h it = none) ∧
    (∀ (start goal g2 : Int × Int) (walk : Int → Int → Bool) (w h : Int) (it : Nat),
       walk goal.1 goal.2 = false →
       Utils.findNearestWalkable goal walk w h = some g2 →
       Utils.findPath start goal walk w h it = Utils.findPath start g2 walk w h it) ∧
    (∀ (goal q : Int × Int) (walk : Int → Int → Bool) (w h : Int),
       Utils.findNearestWalkable goal walk w h = some q →
       Utils.nearCandidate walk w h q = true ∧
       ∀ t, Utils.nearCandidate walk w h t = true →
         Utils.chebDist q goal ≤ max 1 (Utils.chebDist t goal)) ∧
    (∀ (goal : Int × Int) (walk : Int → Int → Bool) (w h : Int),
       Utils.findNearestWalkable goal walk w h = none →
       ∀ t, Utils.chebDist t goal ≤ 9 → Utils.nearCandidate walk w h t = false) := by
  refine ⟨?_, ?_, ?_, ?_⟩
  · intro start goal walk w h it hw hnone
    unfold Utils.findPath Utils.effectiveGoal
    rw [hw]
    simp [hnone]
  · intro start goal g2 walk w h it hw hsome
    have hq := (Utils.findNearestWalkable_spec hsome).1
    unfold Utils.nearCandidate at hq
    have hwq : walk g2.1 g2.2 = true := by
      simp only [Bool.and_eq_true] at hq
      exact hq.2
    unfold Utils.findPath Utils.effectiveGoal
    rw [hw, hwq]
    simp [hsome]
  · intro goal q walk w h hsome
    exact Utils.findNearestWalkable_spec hsome
  · intro goal walk w h hnone
    exact Utils.findNearestWalkable_none_spec hnone

/-- Witness for C5 on concrete grids: an all-blocked grid gives `none`,
and on a grid whose only walkable tile is `(1,1)` the unwalkable goal
`(0,0)` is substituted by `(1,1)`. -/
theorem C5_unwalkable_goal_substitution_witness :
    Utils.findPath (0, 0) (2, 2) (fun _ _ => false) 4 4 5 = none ∧
    Utils.findPath (0, 0) (0, 0) (fun x y => x == 1 && y == 1) 4 4 2000 =
      Utils.findPath (0, 0) (1, 1) (fun x y => x == 1 && y == 1) 4 4 2000 ∧
    (Utils.nearCandidate (fun x y => x == 1 && y == 1) 4 4 (1, 1) = true ∧
      Utils.chebDist (1, 1) (0, 0) ≤ max 1 (Utils.chebDist (1, 1) (0, 0))) ∧
    Utils.nearCandidate (fun _ _ => false) 4 4 (1, 1) = false :=
  ⟨C5_unwalkable_goal_substitution.1 (0, 0) (2, 2) (fun _ _ => false) 4 4 5
      (by rfl) (by rfl),
   C5_unwalkable_goal_substitution.2.1 (0, 0) (0, 0) (1, 1)
      (fun x y => x == 1 && y == 1) 4 4 2000 (by rfl) (by rfl),
   ⟨(C5_unwalkable_goal_substitution.2.2.1 (0, 0) (1, 1)
        (fun x y => x == 1 && y == 1) 4 4 (by rfl)).1,
    (C5_unwalkable_goal_substitution.2.2.1 (0, 0) (1, 1)
        (fun x y => x == 1 && y == 1) 4 4 (by rfl)).2 (1, 1) (by rfl)⟩,
   C5_unwalkable_goal_substitution.2.2.2 (0, 0) (fun _ _ => false) 4 4
      (by rfl) (1, 1) (by decide)⟩

/-- **C6**: `findPath` is total and fuel-bounded by `maxIterations`
(default 2000 in the definition): every call returns an ordinary
`Option` value — `none`, or a sound path to the effective goal, so when no
route exists the result can only be `none`; and a concrete call whose
iteration budget is exhausted returns `none` rather than an error. -/
theorem C6_find_path_bounded_returns_none :
    (∀ (start goal : Int × Int) (walk : Int → Int → Bool) (w h : Int) (it : Nat),
       Utils.findPath start goal walk w h it = none ∨
       ∃ p e, Utils.findPath start goal walk w h it = some p ∧
         Utils.effectiveGoal goal walk w h = some e ∧
         p.head? = some start ∧ p.getLast? = some e ∧
         List.Chain' (fun a b => Utils.stepOk walk w h a b = true) p) ∧
    Utils.findPath (0, 0) (3, 3) (fun _ _ => true) 4 4 1 = none := by
  constructor
  · intro start goal walk w h it
    cases hrun : Utils.findPath start goal walk w h it with
    | none => exact .inl rfl
    | some p =>
      right
      obtain ⟨e, he, h1, h2, h3⟩ := Utils.findPath_sound hrun
      exact ⟨p, e, rfl, he, h1, h2, h3⟩
  · rfl

/-! ### C10, C3 and C9 -/

theorem rectCheckStep_units {s : EntityManager.EMState} {x y w h : ℚ}
    {ownerId : Option Int} (acc : List Nat × List Nat) (id : Nat)
    (hacc : ∀ i ∈ acc.2, EntityManager.isUnit s i = true) :
    ∀ i ∈ (EntityManager.rectCheckStep s x y w h ownerId acc id).2,
      EntityManager.isUnit s i = true := by
  intro i hi
  unfold EntityManager.rectCheckStep at hi
  by_cases h1 : id ∈ acc.1
  · rw [if_pos h1] at hi; exact hacc i hi
  rw [if_neg h1] at hi
  by_cases h2 : EntityManager.isUnit s id = true
  case neg => rw [if_pos h2] at hi; exact hacc i hi
  rw [if_neg (not_not_intro h2)] at hi
  split at hi
  · exact hacc i hi
  · split at hi
    · exact hacc i hi
    · split at hi
      · rcases List.mem_append.mp hi with hh | hh
        · exact hacc i hh
        · rw [List.mem_singleton.mp hh]; exact h2
      · exact hacc i hi

theorem foldl_rectCheckStep_units {s : EntityManager.EMState} {x y w h : ℚ}
    {ownerId : Option Int} (ids : List Nat) :
    ∀ acc, (∀ i ∈ acc.2, EntityManager.isUnit s i = true) →
      ∀ i ∈ (ids.foldl (EntityManager.rectCheckStep s x y w h ownerId) acc).2,
        EntityManager.isUnit s i = true := by
  induction ids with
  | nil => intro acc hacc; exact hacc
  | cons id ids ih =>
    intro acc hacc
    exact ih _ (rectCheckStep_units acc id hacc)

theorem foldl_cells_units {s : EntityManager.EMState} {x y w h : ℚ}
    {ownerId : Option Int} (cells : List (Int × Int)) :
    ∀ acc, (∀ i ∈ acc.2, EntityManager.isUnit s i = true) →
      ∀ i ∈ (cells.foldl
        (fun (acc : List Nat × List Nat) c =>
          (s.spatialGrid c).foldl (EntityManager.rectCheckStep s x y w h ownerId) acc)
        acc).2, EntityManager.isUnit s i = true := by
  induction cells with
  | nil => intro acc hacc; exact hacc
  | cons c cells ih =>
    intro acc hacc
    exact ih _ (foldl_rectCheckStep_units _ acc hacc)

/-- **C10**: the rectangle query returns only entities of type unit: for
every state, rectangle and optional owner filter, any id returned by
`getEntitiesInRect` satisfies `isUnit` — buildings and resource nodes are
never returned, even when their position lies inside the rectangle. -/
theorem C10_rect_query_returns_only_units :
    ∀ (s : EntityManager.EMState) (x y w h : ℚ) (ownerId : Option Int) (id : Nat),
      id ∈ EntityManager.getEntitiesInRect s x y w h ownerId →
      EntityManager.isUnit s id = true := by
  intro s x y w h ownerId id hid
  unfold EntityManager.getEntitiesInRect at hid
  exact foldl_cells_units _ ([], []) (by simp) id hid

/-- Witness for C10: in `em10` (a unit at (1,1), a house at (2,2), both
inside the query rectangle) the query returns id 1, and the theorem
yields that it is a unit. -/
theorem C10_rect_query_returns_only_units_witness :
    (1 ∈ EntityManager.getEntitiesInRect em10 0 0 10 10 none) ∧
    EntityManager.isUnit em10 1 = true :=
  have hres : EntityManager.getEntitiesInRect em10 0 0 10 10 none = [1] := by
    with_unfolding_all rfl
  ⟨by rw [hres]; exact List.mem_singleton.mpr rfl,
   C10_rect_query_returns_only_units em10 0 0 10 10 none 1
     (by rw [hres]; exact List.mem_singleton.mpr rfl)⟩

/-- **C3** (code bug): `trainUnit` checks the population cap and
affordability and then deducts the full cost *before* calling
`addToTrainingQueue`, whose 15-item queue cap can still reject the
request.  With a complete barracks whose queue is full and a player
holding 100 food / 100 gold, training a militia (cost 60 food, 20 gold)
returns `false`, enqueues nothing — and still deducts the cost, leaving
40 food / 80 gold.  This refutes "on any failed train request the
player's resources are left unchanged". -/
theorem C3_train_unit_full_queue_deducts_cost :
    (BuildingSystem.trainUnit UNITS0 1 "militia" 1 em3 players0).1 = false ∧
    ((BuildingSystem.trainUnit UNITS0 1 "militia" 1 em3 players0).2.2 1).map
        (fun p => (p.resources "food", p.resources "gold")) = some (40, 80) ∧
    (players0 1).map (fun p => (p.resources "food", p.resources "gold")) =
      some (100, 100) ∧
    (EntityManager.mapGet
        (BuildingSystem.trainUnit UNITS0 1 "militia" 1 em3 players0).2.1.buildings
        1).map (fun b => b.trainingQueue.length) = some 15 := by
  refine ⟨by with_unfolding_all rfl, by with_unfolding_all rfl,
    by with_unfolding_all rfl, by with_unfolding_all rfl⟩

/-- **C9**: building training queues are strictly FIFO: each update
advances only the head item (by `dt/1000` seconds), an item leaves the
queue exactly when its progress reaches `totalTime` (spawning its unit
when the building has a position), the spawn sequence over any number of
updates is a prefix of the queued unit ids in request order, and three
queued requests `a`, `b`, `c` complete in exactly that order. -/
theorem C9_training_queue_fifo :
    (∀ (hasPos : Bool) (b : EntityManager.BuildingComponent) (dt : ℚ)
       (c : EntityManager.QueueItem) (rest : List EntityManager.QueueItem),
       b.trainingQueue = c :: rest →
       (c.progress + dt / 1000 ≥ c.totalTime ∧
          (BuildingSystem.processTrainingQueue hasPos b dt).1.trainingQueue = rest ∧
          (BuildingSystem.processTrainingQueue hasPos b dt).2 =
            (if hasPos then some c.unitId else none)) ∨
       (¬ c.progress + dt / 1000 ≥ c.totalTime ∧
          (BuildingSystem.processTrainingQueue hasPos b dt).1.trainingQueue =
            { c with progress := c.progress + dt / 1000 } :: rest ∧
          (BuildingSystem.processTrainingQueue hasPos b dt).2 = none)) ∧
    (∀ (n : Nat) (b : EntityManager.BuildingComponent) (dt : ℚ),
       (BuildingSystem.runTrainingQueue true n b dt).2 <+:
         b.trainingQueue.map (fun q => q.unitId)) ∧
    (BuildingSystem.runTrainingQueue true 8 bC9 500).2 = ["a", "b", "c"] := by
  refine ⟨?_, ?_, by with_unfolding_all rfl⟩
  · intro hasPos b dt c rest hq
    unfold BuildingSystem.processTrainingQueue
    rw [hq]
    dsimp only
    by_cases hdone : c.progress + dt / 1000 ≥ c.totalTime
    · left
      rw [if_pos hdone]
      exact ⟨hdone, rfl, rfl⟩
    · right
      rw [if_neg hdone]
      exact ⟨hdone, rfl, rfl⟩
  · intro n
    induction n with
    | zero => intro b dt; exact List.nil_prefix
    | succ n ih =>
      intro b dt
      unfold BuildingSystem.runTrainingQueue BuildingSystem.processTrainingQueue
      cases hq : b.trainingQueue with
      | nil =>
        dsimp only
        have := ih b dt
        rw [hq] at this
        simp only [List.map_nil, List.prefix_nil] at this
        simp [this]
      | cons c rest =>
        dsimp only
        by_cases hdone : c.progress + dt / 1000 ≥ c.totalTime
        · rw [if_pos hdone]
          have := ih { b with trainingQueue := rest } dt
          simp only [Option.toList_some, List.map_cons]
          exact List.cons_prefix_cons.mpr ⟨rfl, this⟩
        · rw [if_neg hdone]
          have := ih { b with trainingQueue :=
            { c with progress := c.progress + dt / 1000 } :: rest } dt
          simp only [List.map_cons] at this ⊢
          simpa using this

/-- Witness for C9: the first 500 ms update on `bC9` advances only the
head item `a` to progress 1/2 and spawns nothing. -/
theorem C9_training_queue_fifo_witness :
    (BuildingSystem.processTrainingQueue true bC9 500).1.trainingQueue =
      ⟨"a", (0 : ℚ) + 500 / 1000, 1⟩ :: [⟨"b", 0, 1⟩, ⟨"c", 0, 2⟩] ∧
    (BuildingSystem.processTrainingQueue true bC9 500).2 = none := by
  rcases C9_training_queue_fifo.1 true bC9 500 ⟨"a", 0, 1⟩ [⟨"b", 0, 1⟩, ⟨"c", 0, 2⟩]
      rfl with ⟨hge, _, _⟩ | ⟨_, hq, hs⟩
  · exact absurd hge (by norm_num)
  · exact ⟨hq, hs⟩

namespace EntityManager

theorem cellCount_add (g : (Int × Int) → List Nat) (id id' : Nat) (wx wy : ℚ)
    (c : Int × Int) :
    cellCount (addToSpatialGrid g id wx wy) id' c =
      cellCount g id' c + (if c = cellKey wx wy ∧ id' = id then 1 else 0) := by
  unfold cellCount addToSpatialGrid
  by_cases hc : c = cellKey wx wy
  · rw [if_pos hc, List.count_append]
    by_cases hid : id' = id
    · simp [hid, hc]
    · simp [hid, hc, List.count_singleton]
  · rw [if_neg hc]
    simp [hc]

theorem cellCount_remove (g : (Int × Int) → List Nat) (id id' : Nat) (wx wy : ℚ)
    (c : Int × Int) :
    cellCount (removeFromSpatialGrid g id wx wy) id' c =
      (if c = cellKey wx wy ∧ id' = id then cellCount g id' c - 1
       else cellCount g id' c) := by
  unfold cellCount removeFromSpatialGrid
  by_cases hc : c = cellKey wx wy
  · rw [if_pos hc]
    by_cases hid : id' = id
    · subst hid
      simp [hc, List.count_erase_self]
    · simp [hc, hid, List.count_erase_of_ne hid]
  · rw [if_neg hc]
    simp [hc]

theorem cellCount_foldl_add (offs : List (Int × Int)) (g : (Int × Int) → List Nat)
    (id id' : Nat) (x y : ℚ) (c : Int × Int) :
    cellCount (offs.foldl (fun g d => addToSpatialGrid g id (x + d.1) (y + d.2)) g) id' c =
      cellCount g id' c +
        (if id' = id then
          (offs.filter (fun d => c = cellKey (x + d.1) (y + d.2))).length
         else 0) := by
  induction offs generalizing g with
  | nil => simp
  | cons d offs ih =>
    simp only [List.foldl_cons]
    rw [ih, cellCount_add, List.filter_cons]
    by_cases hid : id' = id
    · by_cases hc : c = cellKey (x + d.1) (y + d.2)
      · simp only [hid, hc, and_self, if_true, decide_True, List.length_cons]
        omega
      · simp only [hid, hc, and_true, decide_False, if_false]
        simp [hc]
    · simp [hid]

theorem cellCount_foldl_remove_ne (offs : List (Int × Int))
    (g : (Int × Int) → List Nat) (id id' : Nat) (hne : id' ≠ id) (x y : ℚ)
    (c : Int × Int) :
    cellCount (offs.foldl (fun g d => removeFromSpatialGrid g id (x + d.1) (y + d.2)) g)
      id' c = cellCount g id' c := by
  induction offs generalizing g with
  | nil => rfl
  | cons d offs ih =>
    simp only [List.foldl_cons]
    rw [ih, cellCount_remove]
    simp [hne]

theorem cellCount_foldl_remove_le (offs : List (Int × Int))
    (g : (Int × Int) → List Nat) (id id' : Nat) (x y : ℚ) (c : Int × Int) :
    cellCount (offs.foldl (fun g d => removeFromSpatialGrid g id (x + d.1) (y + d.2)) g)
      id' c ≤ cellCount g id' c := by
  induction offs generalizing g with
  | nil => exact le_refl _
  | cons d offs ih =>
    simp only [List.foldl_cons]
    refine le_trans (ih _) ?_
    rw [cellCount_remove]
    split
    · omega
    · exact le_refl _

theorem mapGet_nil {V : Type} (k : Nat) : mapGet ([] : List (Nat × V)) k = none := rfl

theorem mapGet_cons {V : Type} (e : Nat × V) (m : List (Nat × V)) (k : Nat) :
    mapGet (e :: m) k = if e.1 = k then some e.2 else mapGet m k := by
  unfold mapGet
  by_cases h : e.1 = k
  · simp [List.find?_cons, h]
  · simp [List.find?_cons, h]

theorem mapGet_mapSet {V : Type} (m : List (Nat × V)) (k k' : Nat) (v : V) :
    mapGet (mapSet m k v) k' = if k' = k then some v else mapGet m k' := by
  induction m with
  | nil =>
    unfold mapSet
    rw [mapGet_cons, mapGet_nil]
    by_cases h : k' = k
    · simp [h]
    · simp [h, Ne.symm h]
  | cons e m ih =>
    unfold mapSet
    by_cases hek : e.1 = k
    · rw [if_pos hek, mapGet_cons, mapGet_cons]
      by_cases hkk : k' = k
      · simp [hkk]
      · simp [hkk, Ne.symm hkk, hek]
    · rw [if_neg hek, mapGet_cons, mapGet_cons, ih]
      by_cases hkk : k' = k
      · simp [hkk, hek]
      · simp [hkk]

theorem mapGet_mapDel {V : Type} (m : List (Nat × V)) (k k' : Nat) :
    mapGet (mapDel m k) k' = if k' = k then none else mapGet m k' := by
  induction m with
  | nil =>
    unfold mapDel
    simp only [List.filter_nil, mapGet_nil]
    split <;> rfl
  | cons e m ih =>
    unfold mapDel at ih ⊢
    rw [List.filter_cons]
    by_cases hek : e.1 = k
    · have hb : (e.1 != k) = false := by simp [hek]
      rw [hb]
      simp only [Bool.false_eq_true, if_false]
      rw [ih]
      by_cases hkk : k' = k
      · simp [hkk]
      · have hne : e.1 ≠ k' := by rw [hek]; exact Ne.symm hkk
        simp [hkk, mapGet_cons, hne]
    · have hb : (e.1 != k) = true := by simp [hek]
      rw [hb]
      simp only [if_true]
      rw [mapGet_cons, mapGet_cons, ih]
      by_cases hke' : e.1 = k'
      · by_cases hkk : k' = k
        · exact absurd (hke'.trans hkk) hek
        · simp [hke', hkk]
      · simp [hke']

theorem spatialInv_init : SpatialInv init := by
  constructor
  · intro id _
    exact ⟨rfl, fun c => rfl⟩
  · intro id pos hpos
    exact absurd hpos (by simp [init])

/-- Common argument for `createUnit`/`createResource`: a fresh id gets a
position and one grid entry at its cell; everything else is untouched. -/
theorem spatialInv_singleAdd {s : EMState} (hInv : SpatialInv s) (x y : ℚ)
    (s' : EMState)
    (hnext : s'.nextEntityId = s.nextEntityId + 1)
    (hpos : ∀ k, s'.positions k =
      (if k = s.nextEntityId then some ⟨x, y, x, y⟩ else s.positions k))
    (hbld : ∀ k, mapGet s'.buildings k = mapGet s.buildings k)
    (hgrid : s'.spatialGrid = addToSpatialGrid s.spatialGrid s.nextEntityId x y) :
    SpatialInv s' ∧ registeredOnceAt s' s.nextEntityId (cellKey x y) := by
  obtain ⟨h1, h2⟩ := hInv
  have hcnt : ∀ id' c, gridCount s' id' c =
      cellCount s.spatialGrid id' c +
        (if c = cellKey x y ∧ id' = s.nextEntityId then 1 else 0) := by
    intro id' c
    unfold gridCount
    rw [hgrid, cellCount_add]
  have hfresh0 : ∀ c, cellCount s.spatialGrid s.nextEntityId c = 0 :=
    (h1 s.nextEntityId (le_refl _)).2
  have hreg : registeredOnceAt s' s.nextEntityId (cellKey x y) := by
    constructor
    · rw [hcnt, hfresh0]
      simp
    · intro c hc
      rw [hcnt, hfresh0]
      simp [hc]
  refine ⟨⟨?_, ?_⟩, hreg⟩
  · intro id' hid'
    rw [hnext] at hid'
    have hne : id' ≠ s.nextEntityId := by omega
    obtain ⟨hp, hg⟩ := h1 id' (by omega)
    constructor
    · rw [hpos, if_neg hne]
      exact hp
    · intro c
      rw [hcnt]
      simp only [hne, and_false, if_false]
      exact hg c
  · intro id' pos' hpos' hbld'
    by_cases hid : id' = s.nextEntityId
    · subst hid
      rw [hpos, if_pos rfl] at hpos'
      obtain rfl : pos' = ⟨x, y, x, y⟩ := by
        exact (Option.some.injEq _ _).mp hpos'.symm
      exact hreg
    · rw [hpos, if_neg hid] at hpos'
      rw [hbld] at hbld'
      obtain ⟨ha, hb⟩ := h2 id' pos' hpos' hbld'
      constructor
      · rw [hcnt]
        simp only [hid, and_false, if_false]
        exact ha
      · intro c hc
        rw [hcnt]
        simp only [hid, and_false, if_false]
        exact hb c hc

theorem createUnit_spec {UNITS : String → Option UnitData} {unitId : String}
    {owner : Int} {x y : ℚ} {s : EMState} {r : Nat × EMState}
    (hInv : SpatialInv s) (hrun : createUnit UNITS unitId owner x y s = some r) :
    SpatialInv r.2 ∧ registeredOnceAt r.2 r.1 (cellKey x y) := by
  unfold createUnit at hrun
  cases hU : UNITS unitId with
  | none => rw [hU] at hrun; exact absurd hrun (by simp)
  | some data =>
    rw [hU] at hrun
    simp only [Option.some.injEq] at hrun
    have hr1 : r.1 = s.nextEntityId := by rw [← hrun]
    rw [hr1]
    exact spatialInv_singleAdd hInv x y r.2
      (by rw [← hrun]) (by intro k; rw [← hrun]) (by intro k; rw [← hrun]) (by rw [← hrun])

theorem createResource_spec {resourceType : String} {amount : Int} {x y : ℚ}
    {s : EMState} (hInv : SpatialInv s) :
    SpatialInv (createResource resourceType amount x y s).2 ∧
    registeredOnceAt (createResource resourceType amount x y s).2
      (createResource resourceType amount x y s).1 (cellKey x y) := by
  exact spatialInv_singleAdd hInv x y _ rfl (fun k => rfl) (fun k => rfl) rfl

theorem setPosition_spec {s : EMState} (hInv : SpatialInv s) (id : Nat) (x y : ℚ) :
    SpatialInv (setPosition id x y s) ∧
    (∀ pos, s.positions id = some pos → mapGet s.buildings id = none →
       registeredOnceAt (setPosition id x y s) id (cellKey x y)) := by
  obtain ⟨h1, h2⟩ := hInv
  cases hp : s.positions id with
  | none =>
    have hset : setPosition id x y s = s := by
      unfold setPosition
      rw [hp]
    rw [hset]
    exact ⟨⟨h1, h2⟩, fun pos hpos _ => by simp [hp] at hpos⟩
  | some pos =>
    have hset : setPosition id x y s =
        { s with
          positions := fun k => if k = id then some ⟨x, y, pos.x, pos.y⟩ else s.positions k,
          spatialGrid :=
            addToSpatialGrid (removeFromSpatialGrid s.spatialGrid id pos.x pos.y) id x y } := by
      unfold setPosition
      rw [hp]
    rw [hset]
    have hidlt : ¬ s.nextEntityId ≤ id := by
      intro hle
      have := (h1 id hle).1
      rw [hp] at this
      exact absurd this (by simp)
    have hcnt : ∀ id' c,
        cellCount (addToSpatialGrid (removeFromSpatialGrid s.spatialGrid id pos.x pos.y) id x y) id' c =
          ((if c = cellKey pos.x pos.y ∧ id' = id then cellCount s.spatialGrid id' c - 1
            else cellCount s.spatialGrid id' c) +
           (if c = cellKey x y ∧ id' = id then 1 else 0)) := by
      intro id' c
      rw [cellCount_add, cellCount_remove]
    have hreg : mapGet s.buildings id = none →
        registeredOnceAt
          { s with
            positions := fun k => if k = id then some ⟨x, y, pos.x, pos.y⟩ else s.positions k,
            spatialGrid :=
              addToSpatialGrid (removeFromSpatialGrid s.spatialGrid id pos.x pos.y) id x y }
          id (cellKey x y) := by
      intro hbld
      obtain ⟨ha, hb⟩ := h2 id pos hp hbld
      have ha' : cellCount s.spatialGrid id (cellKey pos.x pos.y) = 1 := ha
      have hb' : ∀ c, c ≠ cellKey pos.x pos.y → cellCount s.spatialGrid id c = 0 := hb
      constructor
      · show cellCount (addToSpatialGrid (removeFromSpatialGrid s.spatialGrid id pos.x pos.y) id x y)
          id (cellKey x y) = 1
        rw [hcnt]
        by_cases hco : cellKey x y = cellKey pos.x pos.y
        · have hA : (cellKey x y = cellKey pos.x pos.y ∧ id = id) := ⟨hco, rfl⟩
          have hB : (cellKey x y = cellKey x y ∧ id = id) := ⟨rfl, rfl⟩
          rw [if_pos hA, if_pos hB, hco, ha']
        · have hA : ¬(cellKey x y = cellKey pos.x pos.y ∧ id = id) := fun h => hco h.1
          have hB : (cellKey x y = cellKey x y ∧ id = id) := ⟨rfl, rfl⟩
          rw [if_neg hA, if_pos hB, hb' _ hco]
      · intro c hc
        show cellCount (addToSpatialGrid (removeFromSpatialGrid s.spatialGrid id pos.x pos.y) id x y)
          id c = 0
        rw [hcnt]
        have hB : ¬(c = cellKey x y ∧ id = id) := fun h => hc h.1
        rw [if_neg hB]
        by_cases hco : c = cellKey pos.x pos.y
        · have hA : (c = cellKey pos.x pos.y ∧ id = id) := ⟨hco, rfl⟩
          rw [if_pos hA, hco, ha']
        · have hA : ¬(c = cellKey pos.x pos.y ∧ id = id) := fun h => hco h.1
          rw [if_neg hA, hb' _ hco]
    refine ⟨⟨?_, ?_⟩, fun pos' hpos' hbld => ?_⟩
    · intro id' hid'
      have hne : id' ≠ id := fun h => hidlt (h ▸ hid')
      obtain ⟨hpn, hg⟩ := h1 id' hid'
      constructor
      · show (if id' = id then _ else s.positions id') = none
        rw [if_neg hne]
        exact hpn
      · intro c
        have hA : ¬(c = cellKey pos.x pos.y ∧ id' = id) := fun h => hne h.2
        have hB : ¬(c = cellKey x y ∧ id' = id) := fun h => hne h.2
        show cellCount (addToSpatialGrid (removeFromSpatialGrid s.spatialGrid id pos.x pos.y) id x y)
          id' c = 0
        rw [hcnt, if_neg hA, if_neg hB, Nat.add_zero]
        exact hg c
    · intro id' pos' hpos' hbld'
      have hpos'' : (if id' = id then some (⟨x, y, pos.x, pos.y⟩ : PositionComponent)
          else s.positions id') = some pos' := hpos'
      have hbld'' : mapGet s.buildings id' = none := hbld'
      by_cases hid : id' = id
      · subst hid
        rw [if_pos rfl, Option.some.injEq] at hpos''
        have hcell : cellKey pos'.x pos'.y = cellKey x y := by rw [← hpos'']
        rw [hcell]
        exact hreg hbld''
      · rw [if_neg hid] at hpos''
        obtain ⟨ha, hb⟩ := h2 id' pos' hpos'' hbld''
        have ha' : cellCount s.spatialGrid id' (cellKey pos'.x pos'.y) = 1 := ha
        have hb' : ∀ c, c ≠ cellKey pos'.x pos'.y → cellCount s.spatialGrid id' c = 0 := hb
        constructor
        · have hA : ¬(cellKey pos'.x pos'.y = cellKey pos.x pos.y ∧ id' = id) := fun h => hid h.2
          have hB : ¬(cellKey pos'.x pos'.y = cellKey x y ∧ id' = id) := fun h => hid h.2
          show cellCount (addToSpatialGrid (removeFromSpatialGrid s.spatialGrid id pos.x pos.y) id x y)
            id' (cellKey pos'.x pos'.y) = 1
          rw [hcnt, if_neg hA, if_neg hB, Nat.add_zero]
          exact ha'
        · intro c hc
          have hA : ¬(c = cellKey pos.x pos.y ∧ id' = id) := fun h => hid h.2
          have hB : ¬(c = cellKey x y ∧ id' = id) := fun h => hid h.2
          show cellCount (addToSpatialGrid (removeFromSpatialGrid s.spatialGrid id pos.x pos.y) id x y)
            id' c = 0
          rw [hcnt, if_neg hA, if_neg hB, Nat.add_zero]
          exact hb' c hc
    · exact hreg hbld

theorem removeEntity_spec {s : EMState} (hInv : SpatialInv s) (id : Nat) :
    SpatialInv (removeEntity id s) ∧
    (∀ pos, s.positions id = some pos → mapGet s.buildings id = none →
       ∀ c, gridCount (removeEntity id s) id c = 0) := by
  obtain ⟨h1, h2⟩ := hInv
  cases hp : s.positions id with
  | none =>
    have hset : removeEntity id s =
        { s with
          spatialGrid := s.spatialGrid,
          entities := fun k => if k = id then none else s.entities k,
          positions := fun k => if k = id then none else s.positions k,
          health := fun k => if k = id then none else s.health k,
          units := mapDel s.units id,
          buildings := mapDel s.buildings id,
          resources := fun k => if k = id then none else s.resources k } := by
      unfold removeEntity
      rw [hp]
    rw [hset]
    refine ⟨⟨?_, ?_⟩, fun pos hpos _ _ => by simp [hp] at hpos⟩
    · intro id' hid'
      obtain ⟨hpn, hg⟩ := h1 id' hid'
      refine ⟨?_, fun c => hg c⟩
      show (if id' = id then none else s.positions id') = none
      by_cases hid : id' = id
      · rw [if_pos hid]
      · rw [if_neg hid]
        exact hpn
    · intro id' pos' hpos' hbld'
      have hpos'' : (if id' = id then none else s.positions id') = some pos' := hpos'
      by_cases hid : id' = id
      · rw [if_pos hid] at hpos''
        cases hpos''
      · rw [if_neg hid] at hpos''
        have hbld'' : mapGet (mapDel s.buildings id) id' = none := hbld'
        rw [mapGet_mapDel, if_neg hid] at hbld''
        exact h2 id' pos' hpos'' hbld''
  | some pos =>
    have hidlt : ¬ s.nextEntityId ≤ id := by
      intro hle
      have := (h1 id hle).1
      rw [hp] at this
      exact absurd this (by simp)
    cases hbld : mapGet s.buildings id with
    | some building =>
      have hset : removeEntity id s =
          { s with
            spatialGrid :=
              (footprintOffsets (building.data.size.getD (2, 2))).foldl
                (fun g d => removeFromSpatialGrid g id (pos.x + d.1) (pos.y + d.2))
                s.spatialGrid,
            entities := fun k => if k = id then none else s.entities k,
            positions := fun k => if k = id then none else s.positions k,
            health := fun k => if k = id then none else s.health k,
            units := mapDel s.units id,
            buildings := mapDel s.buildings id,
            resources := fun k => if k = id then none else s.resources k } := by
        unfold removeEntity
        rw [hp, hbld]
      rw [hset]
      refine ⟨⟨?_, ?_⟩, fun pos' _ hbn _ => by cases hbn⟩
      · intro id' hid'
        have hne : id' ≠ id := fun h => hidlt (h ▸ hid')
        obtain ⟨hpn, hg⟩ := h1 id' hid'
        refine ⟨?_, fun c => ?_⟩
        · show (if id' = id then none else s.positions id') = none
          rw [if_neg hne]
          exact hpn
        · show cellCount ((footprintOffsets (building.data.size.getD (2, 2))).foldl
            (fun g d => removeFromSpatialGrid g id (pos.x + d.1) (pos.y + d.2))
            s.spatialGrid) id' c = 0
          rw [cellCount_foldl_remove_ne _ _ _ _ hne]
          exact hg c
      · intro id' pos' hpos' hbld'
        have hpos'' : (if id' = id then none else s.positions id') = some pos' := hpos'
        by_cases hid : id' = id
        · rw [if_pos hid] at hpos''
          cases hpos''
        · rw [if_neg hid] at hpos''
          have hbld'' : mapGet (mapDel s.buildings id) id' = none := hbld'
          rw [mapGet_mapDel, if_neg hid] at hbld''
          obtain ⟨ha, hb⟩ := h2 id' pos' hpos'' hbld''
          have ha' : cellCount s.spatialGrid id' (cellKey pos'.x pos'.y) = 1 := ha
          have hb' : ∀ c, c ≠ cellKey pos'.x pos'.y → cellCount s.spatialGrid id' c = 0 := hb
          refine ⟨?_, fun c hc => ?_⟩
          · show cellCount ((footprintOffsets (building.data.size.getD (2, 2))).foldl
              (fun g d => removeFromSpatialGrid g id (pos.x + d.1) (pos.y + d.2))
              s.spatialGrid) id' (cellKey pos'.x pos'.y) = 1
            rw [cellCount_foldl_remove_ne _ _ _ _ hid]
            exact ha'
          · show cellCount ((footprintOffsets (building.data.size.getD (2, 2))).foldl
              (fun g d => removeFromSpatialGrid g id (pos.x + d.1) (pos.y + d.2))
              s.spatialGrid) id' c = 0
            rw [cellCount_foldl_remove_ne _ _ _ _ hid]
            exact hb' c hc
    | none =>
      have hset : removeEntity id s =
          { s with
            spatialGrid := removeFromSpatialGrid s.spatialGrid id pos.x pos.y,
            entities := fun k => if k = id then none else s.entities k,
            positions := fun k => if k = id then none else s.positions k,
            health := fun k => if k = id then none else s.health k,
            units := mapDel s.units id,
            buildings := mapDel s.buildings id,
            resources := fun k => if k = id then none else s.resources k } := by
        unfold removeEntity
        rw [hp, hbld]
      rw [hset]
      obtain ⟨ha0, hb0⟩ := h2 id pos hp hbld
      have ha0' : cellCount s.spatialGrid id (cellKey pos.x pos.y) = 1 := ha0
      have hb0' : ∀ c, c ≠ cellKey pos.x pos.y → cellCount s.spatialGrid id c = 0 := hb0
      refine ⟨⟨?_, ?_⟩, fun pos' hpos' _ c => ?_⟩
      · intro id' hid'
        have hne : id' ≠ id := fun h => hidlt (h ▸ hid')
        obtain ⟨hpn, hg⟩ := h1 id' hid'
        refine ⟨?_, fun c => ?_⟩
        · show (if id' = id then none else s.positions id') = none
          rw [if_neg hne]
          exact hpn
        · have hA : ¬(c = cellKey pos.x pos.y ∧ id' = id) := fun h => hne h.2
          show cellCount (removeFromSpatialGrid s.spatialGrid id pos.x pos.y) id' c = 0
          rw [cellCount_remove, if_neg hA]
          exact hg c
      · intro id' pos' hpos' hbld'
        have hpos'' : (if id' = id then none else s.positions id') = some pos' := hpos'
        by_cases hid : id' = id
        · rw [if_pos hid] at hpos''
          cases hpos''
        · rw [if_neg hid] at hpos''
          have hbld'' : mapGet (mapDel s.buildings id) id' = none := hbld'
          rw [mapGet_mapDel, if_neg hid] at hbld''
          obtain ⟨ha, hb⟩ := h2 id' pos' hpos'' hbld''
          have ha' : cellCount s.spatialGrid id' (cellKey pos'.x pos'.y) = 1 := ha
          have hb' : ∀ c, c ≠ cellKey pos'.x pos'.y → cellCount s.spatialGrid id' c = 0 := hb
          refine ⟨?_, fun c hc => ?_⟩
          · have hA : ¬(cellKey pos'.x pos'.y = cellKey pos.x pos.y ∧ id' = id) :=
              fun h => hid h.2
            show cellCount (removeFromSpatialGrid s.spatialGrid id pos.x pos.y) id'
              (cellKey pos'.x pos'.y) = 1
            rw [cellCount_remove, if_neg hA]
            exact ha'
          · have hA : ¬(c = cellKey pos.x pos.y ∧ id' = id) := fun h => hid h.2
            show cellCount (removeFromSpatialGrid s.spatialGrid id pos.x pos.y) id' c = 0
            rw [cellCount_remove, if_neg hA]
            exact hb' c hc
      · show cellCount (removeFromSpatialGrid s.spatialGrid id pos.x pos.y) id c = 0
        rw [cellCount_remove]
        by_cases hc : c = cellKey pos.x pos.y
        · have hA : (c = cellKey pos.x pos.y ∧ id = id) := ⟨hc, rfl⟩
          rw [if_pos hA, hc, ha0']
        · have hA : ¬(c = cellKey pos.x pos.y ∧ id = id) := fun h => hc h.1
          rw [if_neg hA]
          exact hb0' c hc

theorem spatialInv_footprintAdd {s : EMState} (hInv : SpatialInv s) (x y : ℚ)
    (offs : List (Int × Int)) (s' : EMState) (bc : BuildingComponent)
    (hnext : s'.nextEntityId = s.nextEntityId + 1)
    (hpos : ∀ k, s'.positions k =
      (if k = s.nextEntityId then some ⟨x, y, x, y⟩ else s.positions k))
    (hbld : ∀ k, mapGet s'.buildings k =
      (if k = s.nextEntityId then some bc else mapGet s.buildings k))
    (hgrid : s'.spatialGrid = offs.foldl
      (fun g d => addToSpatialGrid g s.nextEntityId (x + d.1) (y + d.2)) s.spatialGrid) :
    SpatialInv s' ∧
    (∀ c, gridCount s' s.nextEntityId c =
      (offs.filter (fun d => c = cellKey (x + d.1) (y + d.2))).length) := by
  obtain ⟨h1, h2⟩ := hInv
  have hcnt : ∀ id' c, gridCount s' id' c =
      cellCount s.spatialGrid id' c +
        (if id' = s.nextEntityId then
          (offs.filter (fun d => c = cellKey (x + d.1) (y + d.2))).length else 0) := by
    intro id' c
    unfold gridCount
    rw [hgrid, cellCount_foldl_add]
  have hfresh0 : ∀ c, cellCount s.spatialGrid s.nextEntityId c = 0 :=
    (h1 s.nextEntityId (le_refl _)).2
  have hregc : ∀ c, gridCount s' s.nextEntityId c =
      (offs.filter (fun d => c = cellKey (x + d.1) (y + d.2))).length := by
    intro c
    rw [hcnt, hfresh0, if_pos rfl, Nat.zero_add]
  refine ⟨⟨?_, ?_⟩, hregc⟩
  · intro id' hid'
    rw [hnext] at hid'
    have hne : id' ≠ s.nextEntityId := by omega
    obtain ⟨hp, hg⟩ := h1 id' (by omega)
    constructor
    · rw [hpos, if_neg hne]
      exact hp
    · intro c
      rw [hcnt, if_neg hne, Nat.add_zero]
      exact hg c
  · intro id' pos' hpos' hbld'
    by_cases hid : id' = s.nextEntityId
    · subst hid
      rw [hbld, if_pos rfl] at hbld'
      cases hbld'
    · rw [hpos, if_neg hid] at hpos'
      rw [hbld, if_neg hid] at hbld'
      obtain ⟨ha, hb⟩ := h2 id' pos' hpos' hbld'
      constructor
      · rw [hcnt, if_neg hid, Nat.add_zero]
        exact ha
      · intro c hc
        rw [hcnt, if_neg hid, Nat.add_zero]
        exact hb c hc

theorem createBuilding_spec {BUILDINGS : String → Option BuildingData}
    {buildingId : String} {owner : Int} {x y : ℚ} {complete : Bool}
    {s : EMState} {r : Nat × EMState} {data : BuildingData}
    (hInv : SpatialInv s) (hB : BUILDINGS buildingId = some data)
    (hrun : createBuilding BUILDINGS buildingId owner x y complete s = some r) :
    r.1 = s.nextEntityId ∧ SpatialInv r.2 ∧
    (∀ c, gridCount r.2 r.1 c =
      ((footprintOffsets (data.size.getD (2, 2))).filter
        (fun d => c = cellKey (x + d.1) (y + d.2))).length) := by
  unfold createBuilding at hrun
  rw [hB] at hrun
  simp only [Option.some.injEq] at hrun
  have hr1 : r.1 = s.nextEntityId := by rw [← hrun]
  have h := spatialInv_footprintAdd hInv x y
      (footprintOffsets (data.size.getD (2, 2))) r.2
      ⟨data, if complete then 1 else 0, complete, [], [], none, [],
        if buildingId = "farm" then 175 else 0⟩
      (by rw [← hrun])
      (by intro k; rw [← hrun])
      (by intro k; rw [← hrun]; exact mapGet_mapSet s.buildings s.nextEntityId k _)
      (by rw [← hrun])
  refine ⟨hr1, h.1, ?_⟩
  rw [hr1]
  exact h.2

/-- `deserializeEntry` touches the spatial grid only in its final step: a
single anchor-cell registration when the entry carries a position. -/
theorem deserializeEntry_grid (UNITS : String → Option UnitData)
    (BUILDINGS : String → Option BuildingData) (s : EMState)
    (e : SerializedEntity) :
    (deserializeEntry UNITS BUILDINGS s e).spatialGrid =
      (match e.pos with
       | none => s.spatialGrid
       | some p => addToSpatialGrid s.spatialGrid e.sid p.1 p.2) := by
  obtain ⟨sid, ow, ty, pos, hp, unit, bld, res⟩ := e
  unfold deserializeEntry
  cases pos <;> cases hp <;> cases res <;>
    (cases unit with
     | none =>
       cases bld with
       | none => rfl
       | some b =>
         try dsimp only
         cases BUILDINGS b.buildingId <;> rfl
     | some u =>
       try dsimp only
       cases UNITS u.unitId <;>
         (cases bld with
          | none => rfl
          | some b =>
            try dsimp only
            cases BUILDINGS b.buildingId <;> rfl))

theorem cellCount_foldl_deserialize (UNITS : String → Option UnitData)
    (BUILDINGS : String → Option BuildingData)
    (entries : List SerializedEntity) (s0 : EMState) (id : Nat) (c : Int × Int) :
    cellCount ((entries.foldl (deserializeEntry UNITS BUILDINGS) s0).spatialGrid) id c =
      cellCount s0.spatialGrid id c +
        (entries.filter (fun e => anchorsAt e id c)).length := by
  induction entries generalizing s0 with
  | nil => simp
  | cons e es ih =>
    simp only [List.foldl_cons, List.filter_cons]
    cases hp : e.pos with
    | none =>
      have hg : (deserializeEntry UNITS BUILDINGS s0 e).spatialGrid = s0.spatialGrid := by
        rw [deserializeEntry_grid, hp]
      have ha : anchorsAt e id c = false := by
        unfold anchorsAt
        rw [hp]
      rw [ih, hg, ha]
      simp
    | some p =>
      have hg : (deserializeEntry UNITS BUILDINGS s0 e).spatialGrid =
          addToSpatialGrid s0.spatialGrid e.sid p.1 p.2 := by
        rw [deserializeEntry_grid, hp]
      have ha : anchorsAt e id c =
          (decide (e.sid = id) && decide (c = cellKey p.1 p.2)) := by
        unfold anchorsAt
        rw [hp]
      rw [ih, hg, cellCount_add, ha]
      by_cases h1 : e.sid = id
      · by_cases h2 : c = cellKey p.1 p.2
        · rw [if_pos ⟨h2, h1.symm⟩]
          simp only [h1, h2, decide_True, Bool.and_self, if_true, List.length_cons]
          omega
        · rw [if_neg (fun h => h2 h.1)]
          simp [h1, h2]
      · rw [if_neg (fun h => h1 h.2.symm)]
        simp [h1]

theorem filter_anchors_nodup (entries : List SerializedEntity)
    (hnod : (entries.map (fun e => e.sid)).Nodup)
    (e : SerializedEntity) (he : e ∈ entries) (p : ℚ × ℚ) (hp : e.pos = some p)
    (c : Int × Int) :
    (entries.filter (fun e' => anchorsAt e' e.sid c)).length =
      (if c = cellKey p.1 p.2 then 1 else 0) := by
  induction entries with
  | nil => cases he
  | cons a es ih =>
    rw [List.map_cons, List.nodup_cons] at hnod
    obtain ⟨hna, hnes⟩ := hnod
    rw [List.filter_cons]
    rcases List.mem_cons.mp he with rfl | hees
    · have htail : (es.filter (fun e' => anchorsAt e' e.sid c)) = [] := by
        rw [List.filter_eq_nil_iff]
        intro e' he'
        have hne : e'.sid ≠ e.sid := by
          intro hh
          exact hna (hh ▸ List.mem_map_of_mem (fun x => x.sid) he')
        unfold anchorsAt
        cases hpp : e'.pos
        · simp
        · simp [hne]
      have hhead : anchorsAt e e.sid c = decide (c = cellKey p.1 p.2) := by
        unfold anchorsAt
        rw [hp]
        simp
      rw [hhead, htail]
      by_cases hc : c = cellKey p.1 p.2 <;> simp [hc]
    · have hne : a.sid ≠ e.sid := by
        intro hh
        exact hna (hh ▸ List.mem_map_of_mem (fun x => x.sid) hees)
      have hhead : anchorsAt a e.sid c = false := by
        unfold anchorsAt
        cases hpp : a.pos
        · rfl
        · simp [hne]
      rw [hhead]
      simp only [Bool.false_eq_true, if_false]
      exact ih hnes hees

theorem deserialize_registered (UNITS : String → Option UnitData)
    (BUILDINGS : String → Option BuildingData) (nextId : Nat)
    (entries : List SerializedEntity)
    (hnod : (entries.map (fun e => e.sid)).Nodup)
    (e : SerializedEntity) (he : e ∈ entries) (p : ℚ × ℚ) (hp : e.pos = some p) :
    registeredOnceAt (deserialize UNITS BUILDINGS nextId entries) e.sid
      (cellKey p.1 p.2) := by
  have hcnt : ∀ c, gridCount (deserialize UNITS BUILDINGS nextId entries) e.sid c =
      (entries.filter (fun e' => anchorsAt e' e.sid c)).length := by
    intro c
    unfold deserialize gridCount
    rw [cellCount_foldl_deserialize]
    have h0 : cellCount ({ init with nextEntityId := nextId } : EMState).spatialGrid
        e.sid c = 0 := rfl
    rw [h0, Nat.zero_add]
  constructor
  · rw [hcnt, filter_anchors_nodup entries hnod e he p hp, if_pos rfl]
  · intro c hc
    rw [hcnt, filter_anchors_nodup entries hnod e he p hp, if_neg hc]

end EntityManager

/-- **C7, counterexample**: the literal invariant "every entity with a
Position is registered in exactly one spatial cell" fails for buildings:
`createBuilding` registers one entry per footprint tile, so the 2×2 house
of `em7` (anchor (3,3), id 1) has a position yet carries one grid entry
in each of the four distinct cells (0,0), (1,0), (0,1) and (1,1) — it is
registered in no single cell. -/
theorem C7_counterexample :
    em7.positions 1 = some ⟨3, 3, 3, 3⟩ ∧
    EntityManager.gridCount em7 1 (0, 0) = 1 ∧
    EntityManager.gridCount em7 1 (1, 0) = 1 ∧
    EntityManager.gridCount em7 1 (0, 1) = 1 ∧
    EntityManager.gridCount em7 1 (1, 1) = 1 ∧
    ¬ ∃ c0, EntityManager.registeredOnceAt em7 1 c0 := by
  refine ⟨by with_unfolding_all rfl, by with_unfolding_all rfl,
    by with_unfolding_all rfl, by with_unfolding_all rfl,
    by with_unfolding_all rfl, ?_⟩
  rintro ⟨c0, h1c, h2c⟩
  by_cases hc : c0 = ((0 : Int), (0 : Int))
  · have h11 : EntityManager.gridCount em7 1 (1, 1) = 0 :=
      h2c (1, 1) (by rw [hc]; decide)
    have : EntityManager.gridCount em7 1 (1, 1) = 1 := by with_unfolding_all rfl
    rw [this] at h11
    cases h11
  · have h00 : EntityManager.gridCount em7 1 (0, 0) = 0 :=
      h2c (0, 0) (fun h => hc h.symm)
    have : EntityManager.gridCount em7 1 (0, 0) = 1 := by with_unfolding_all rfl
    rw [this] at h00
    cases h00

/-- **C7, amended**: spatial-index registration after every Entity Store
operation, as the code actually behaves. From a state satisfying
`SpatialInv` (fresh ids unregistered; every *non-building* entity with a
position registered exactly once, in the cell of its coordinates):
`init` satisfies the invariant; `createUnit` and `createResource`
preserve it and register the new entity exactly once at its cell;
`createBuilding` preserves it but registers the new building once per
footprint tile (one entry in each tile's cell — not one cell overall);
`setPosition` preserves it and atomically re-registers a non-building
entity exactly once at its new cell (deregister-then-reregister);
`removeEntity` preserves it and leaves a removed positioned non-building
entity with no grid entries; and `deserialize` of a snapshot with
distinct ids registers every positioned entry — buildings included —
exactly once, at its anchor cell only. -/
theorem C7_spatial_registration_amended :
    EntityManager.SpatialInv EntityManager.init ∧
    (∀ (UNITS : String → Option EntityManager.UnitData) (unitId : String)
       (owner : Int) (x y : ℚ) (s : EntityManager.EMState)
       (r : Nat × EntityManager.EMState), EntityManager.SpatialInv s →
       EntityManager.createUnit UNITS unitId owner x y s = some r →
       EntityManager.SpatialInv r.2 ∧
       EntityManager.registeredOnceAt r.2 r.1 (EntityManager.cellKey x y)) ∧
    (∀ (resourceType : String) (amount : Int) (x y : ℚ)
       (s : EntityManager.EMState), EntityManager.SpatialInv s →
       EntityManager.SpatialInv (EntityManager.createResource resourceType amount x y s).2 ∧
       EntityManager.registeredOnceAt
         (EntityManager.createResource resourceType amount x y s).2
         (EntityManager.createResource resourceType amount x y s).1
         (EntityManager.cellKey x y)) ∧
    (∀ (BUILDINGS : String → Option EntityManager.BuildingData)
       (buildingId : String) (owner : Int) (x y : ℚ) (complete : Bool)
       (s : EntityManager.EMState) (r : Nat × EntityManager.EMState)
       (data : EntityManager.BuildingData), EntityManager.SpatialInv s →
       BUILDINGS buildingId = some data →
       EntityManager.createBuilding BUILDINGS buildingId owner x y complete s = some r →
       r.1 = s.nextEntityId ∧ EntityManager.SpatialInv r.2 ∧
       (∀ c, EntityManager.gridCount r.2 r.1 c =
         ((EntityManager.footprintOffsets (data.size.getD (2, 2))).filter
           (fun d => c = EntityManager.cellKey (x + d.1) (y + d.2))).length)) ∧
    (∀ (id : Nat) (x y : ℚ) (s : EntityManager.EMState), EntityManager.SpatialInv s →
       EntityManager.SpatialInv (EntityManager.setPosition id x y s) ∧
       (∀ pos, s.positions id = some pos →
          EntityManager.mapGet s.buildings id = none →
          EntityManager.registeredOnceAt (EntityManager.setPosition id x y s) id
            (EntityManager.cellKey x y))) ∧
    (∀ (id : Nat) (s : EntityManager.EMState), EntityManager.SpatialInv s →
       EntityManager.SpatialInv (EntityManager.removeEntity id s) ∧
       (∀ pos, s.positions id = some pos →
          EntityManager.mapGet s.buildings id = none →
          ∀ c, EntityManager.gridCount (EntityManager.removeEntity id s) id c = 0)) ∧
    (∀ (UNITS : String → Option EntityManager.UnitData)
       (BUILDINGS : String → Option EntityManager.BuildingData)
       (nextId : Nat) (entries : List EntityManager.SerializedEntity),
       (entries.map (fun e => e.sid)).Nodup →
       ∀ e ∈ entries, ∀ p, e.pos = some p →
         EntityManager.registeredOnceAt
           (EntityManager.deserialize UNITS BUILDINGS nextId entries) e.sid
           (EntityManager.cellKey p.1 p.2)) :=
  ⟨EntityManager.spatialInv_init,
   fun _ _ _ _ _ _ _ hInv hrun => EntityManager.createUnit_spec hInv hrun,
   fun _ _ _ _ _ hInv => EntityManager.createResource_spec hInv,
   fun _ _ _ _ _ _ _ _ _ hInv hB hrun => EntityManager.createBuilding_spec hInv hB hrun,
   fun id x y _ hInv => EntityManager.setPosition_spec hInv id x y,
   fun id _ hInv => EntityManager.removeEntity_spec hInv id,
   fun U B n entries hnod e he p hp =>
     EntityManager.deserialize_registered U B n entries hnod e he p hp⟩

/-- Witness for C7: applying the amended theorem's `createUnit` part at the
initial manager and a concrete villager at (3,3) — the resulting state
satisfies the invariant and the new unit is registered exactly once at
cell (0,0). -/
theorem C7_spatial_registration_amended_witness :
    EntityManager.SpatialInv em7u.2 ∧
    EntityManager.registeredOnceAt em7u.2 em7u.1 (EntityManager.cellKey 3 3) :=
  C7_spatial_registration_amended.2.1 UNITS0 "villager" 1 3 3 EntityManager.init em7u
    EntityManager.spatialInv_init (by with_unfolding_all rfl)

namespace FogOfWar

theorem mem_discOffsets (r : Nat) (d : Int × Int) :
    d ∈ discOffsets r ↔
      (-(r : Int) ≤ d.1 ∧ d.1 ≤ r ∧ -(r : Int) ≤ d.2 ∧ d.2 ≤ r) := by
  unfold discOffsets
  simp only [List.mem_flatMap, List.mem_map, List.mem_range]
  constructor
  · rintro ⟨dy, hdy, dx, hdx, rfl⟩
    simp only
    omega
  · rintro ⟨h1, h2, h3, h4⟩
    refine ⟨(d.2 + r).toNat, by omega, (d.1 + r).toNat, by omega, ?_⟩
    rw [Prod.ext_iff]
    constructor <;> simp only <;> omega

theorem revealStep_char1 (width height cx cy : Int) (radius : Nat)
    (acc : ((Int × Int) → Bool) × ((Int × Int) → Bool)) (d c : Int × Int) :
    (revealStep width height cx cy radius acc d).1 c = true ↔
      (acc.1 c = true ∨ revealHit width height cx cy radius d c) := by
  unfold revealStep revealHit
  by_cases h1 : d.1 * d.1 + d.2 * d.2 > (radius : Int) * radius
  · rw [if_pos h1]
    constructor
    · exact Or.inl
    · rintro (h | ⟨hd, _, _⟩)
      · exact h
      · exact absurd hd (by omega)
  · rw [if_neg h1]
    dsimp only
    by_cases h2 : cx + d.1 < 0 ∨ cx + d.1 ≥ width ∨ cy + d.2 < 0 ∨ cy + d.2 ≥ height
    · rw [if_pos h2]
      constructor
      · exact Or.inl
      · rintro (h | ⟨_, hc, hb1, hb2, hb3, hb4⟩)
        · exact h
        · rw [hc] at hb1 hb2 hb3 hb4
          simp only at hb1 hb2 hb3 hb4
          omega
    · rw [if_neg h2]
      dsimp only
      by_cases hc : c = (cx + d.1, cy + d.2)
      · rw [if_pos hc]
        constructor
        · intro _
          refine Or.inr ⟨by omega, hc, ?_, ?_, ?_, ?_⟩ <;> (rw [hc]; simp only; omega)
        · intro _
          rfl
      · rw [if_neg hc]
        constructor
        · exact Or.inl
        · rintro (h | ⟨_, hceq, _⟩)
          · exact h
          · exact absurd hceq hc

theorem revealStep_char2 (width height cx cy : Int) (radius : Nat)
    (acc : ((Int × Int) → Bool) × ((Int × Int) → Bool)) (d c : Int × Int) :
    (revealStep width height cx cy radius acc d).2 c = true ↔
      (acc.2 c = true ∨ revealHit width height cx cy radius d c) := by
  unfold revealStep revealHit
  by_cases h1 : d.1 * d.1 + d.2 * d.2 > (radius : Int) * radius
  · rw [if_pos h1]
    constructor
    · exact Or.inl
    · rintro (h | ⟨hd, _, _⟩)
      · exact h
      · exact absurd hd (by omega)
  · rw [if_neg h1]
    dsimp only
    by_cases h2 : cx + d.1 < 0 ∨ cx + d.1 ≥ width ∨ cy + d.2 < 0 ∨ cy + d.2 ≥ height
    · rw [if_pos h2]
      constructor
      · exact Or.inl
      · rintro (h | ⟨_, hc, hb1, hb2, hb3, hb4⟩)
        · exact h
        · rw [hc] at hb1 hb2 hb3 hb4
          simp only at hb1 hb2 hb3 hb4
          omega
    · rw [if_neg h2]
      dsimp only
      by_cases hc : c = (cx + d.1, cy + d.2)
      · rw [if_pos hc]
        constructor
        · intro _
          refine Or.inr ⟨by omega, hc, ?_, ?_, ?_, ?_⟩ <;> (rw [hc]; simp only; omega)
        · intro _
          rfl
      · rw [if_neg hc]
        constructor
        · exact Or.inl
        · rintro (h | ⟨_, hceq, _⟩)
          · exact h
          · exact absurd hceq hc

theorem revealFold_char1 (width height cx cy : Int) (radius : Nat)
    (offs : List (Int × Int)) :
    ∀ (acc : ((Int × Int) → Bool) × ((Int × Int) → Bool)) (c : Int × Int),
      ((offs.foldl (revealStep width height cx cy radius) acc).1 c = true ↔
        (acc.1 c = true ∨ ∃ d ∈ offs, revealHit width height cx cy radius d c)) := by
  induction offs with
  | nil =>
    intro acc c
    simp
  | cons d offs ih =>
    intro acc c
    simp only [List.foldl_cons, List.mem_cons]
    rw [ih, revealStep_char1]
    constructor
    · rintro ((h | hh) | ⟨d', hd', hh⟩)
      · exact Or.inl h
      · exact Or.inr ⟨d, Or.inl rfl, hh⟩
      · exact Or.inr ⟨d', Or.inr hd', hh⟩
    · rintro (h | ⟨d', (rfl | hd'), hh⟩)
      · exact Or.inl (Or.inl h)
      · exact Or.inl (Or.inr hh)
      · exact Or.inr ⟨d', hd', hh⟩

theorem revealFold_char2 (width height cx cy : Int) (radius : Nat)
    (offs : List (Int × Int)) :
    ∀ (acc : ((Int × Int) → Bool) × ((Int × Int) → Bool)) (c : Int × Int),
      ((offs.foldl (revealStep width height cx cy radius) acc).2 c = true ↔
        (acc.2 c = true ∨ ∃ d ∈ offs, revealHit width height cx cy radius d c)) := by
  induction offs with
  | nil =>
    intro acc c
    simp
  | cons d offs ih =>
    intro acc c
    simp only [List.foldl_cons, List.mem_cons]
    rw [ih, revealStep_char2]
    constructor
    · rintro ((h | hh) | ⟨d', hd', hh⟩)
      · exact Or.inl h
      · exact Or.inr ⟨d, Or.inl rfl, hh⟩
      · exact Or.inr ⟨d', Or.inr hd', hh⟩
    · rintro (h | ⟨d', (rfl | hd'), hh⟩)
      · exact Or.inl (Or.inl h)
      · exact Or.inl (Or.inr hh)
      · exact Or.inr ⟨d', hd', hh⟩

theorem sq_le_abs (a b : Int) (hb : 0 ≤ b) (h : a * a ≤ b * b) :
    -b ≤ a ∧ a ≤ b := by
  constructor <;> nlinarith

theorem exists_revealHit_iff (width height cx cy : Int) (radius : Nat)
    (c : Int × Int) :
    (∃ d ∈ discOffsets radius, revealHit width height cx cy radius d c) ↔
      ((c.1 - cx) * (c.1 - cx) + (c.2 - cy) * (c.2 - cy) ≤ (radius : Int) * radius ∧
       0 ≤ c.1 ∧ c.1 < width ∧ 0 ≤ c.2 ∧ c.2 < height) := by
  constructor
  · rintro ⟨d, _, hdisc, hc, hb⟩
    have h1 : c.1 = cx + d.1 := by rw [hc]
    have h2 : c.2 = cy + d.2 := by rw [hc]
    refine ⟨?_, hb⟩
    have e1 : c.1 - cx = d.1 := by omega
    have e2 : c.2 - cy = d.2 := by omega
    rw [e1, e2]
    exact hdisc
  · rintro ⟨hdisc, hb1, hb2, hb3, hb4⟩
    refine ⟨(c.1 - cx, c.2 - cy), ?_, ?_, ?_, hb1, hb2, hb3, hb4⟩
    · rw [mem_discOffsets]
      have hx := sq_le_abs (c.1 - cx) radius (Int.natCast_nonneg radius)
        (by nlinarith [mul_self_nonneg (c.2 - cy)])
      have hy := sq_le_abs (c.2 - cy) radius (Int.natCast_nonneg radius)
        (by nlinarith [mul_self_nonneg (c.1 - cx)])
      exact ⟨hx.1, hx.2, hy.1, hy.2⟩
    · exact hdisc
    · rw [Prod.ext_iff]
      constructor <;> simp only <;> ring

theorem revealCircle_char1 (width height : Int)
    (vis exp : (Int × Int) → Bool) (cx cy : Int) (radius : Nat) (c : Int × Int) :
    (revealCircle width height vis exp cx cy radius).1 c = true ↔
      (vis c = true ∨
       ((c.1 - cx) * (c.1 - cx) + (c.2 - cy) * (c.2 - cy) ≤ (radius : Int) * radius ∧
        0 ≤ c.1 ∧ c.1 < width ∧ 0 ≤ c.2 ∧ c.2 < height)) := by
  unfold revealCircle
  rw [revealFold_char1, exists_revealHit_iff]

theorem revealCircle_char2 (width height : Int)
    (vis exp : (Int × Int) → Bool) (cx cy : Int) (radius : Nat) (c : Int × Int) :
    (revealCircle width height vis exp cx cy radius).2 c = true ↔
      (exp c = true ∨
       ((c.1 - cx) * (c.1 - cx) + (c.2 - cy) * (c.2 - cy) ≤ (radius : Int) * radius ∧
        0 ≤ c.1 ∧ c.1 < width ∧ 0 ≤ c.2 ∧ c.2 < height)) := by
  unfold revealCircle
  rw [revealFold_char2, exists_revealHit_iff]

theorem visStep_char (p : Int) (st : FogState) (v x : (Int × Int) → Bool)
    (hv : st.visibility p = some v) (hx : st.explored p = some x)
    (e : FogEntity) :
    ∃ v' x', (visStep st e).visibility p = some v' ∧
      (visStep st e).explored p = some x' ∧
      (visStep st e).width = st.width ∧ (visStep st e).height = st.height ∧
      (∀ t, v' t = true ↔ (v t = true ∨ (e.owner = p ∧ covers e t ∧
        0 ≤ t.1 ∧ t.1 < st.width ∧ 0 ≤ t.2 ∧ t.2 < st.height))) ∧
      (∀ t, x' t = true ↔ (x t = true ∨ (e.owner = p ∧ covers e t ∧
        0 ≤ t.1 ∧ t.1 < st.width ∧ 0 ≤ t.2 ∧ t.2 < st.height))) := by
  cases hp : e.pos with
  | none =>
    have hstep : visStep st e = st := by
      unfold visStep
      rw [hp]
    rw [hstep]
    refine ⟨v, x, hv, hx, rfl, rfl, fun t => ?_, fun t => ?_⟩ <;>
      (constructor
       · exact Or.inl
       · rintro (h | ⟨_, ⟨pos', hpos', _⟩, _⟩)
         · exact h
         · rw [hp] at hpos'
           cases hpos')
  | some pos =>
    by_cases how : e.owner = -1
    · have hstep : visStep st e = st := by
        unfold visStep
        rw [hp]
        dsimp only
        rw [if_pos how]
      rw [hstep]
      refine ⟨v, x, hv, hx, rfl, rfl, fun t => ?_, fun t => ?_⟩ <;>
        (constructor
         · exact Or.inl
         · rintro (h | ⟨_, ⟨pos', _, hno, _⟩, _⟩)
           · exact h
           · exact absurd how hno)
    · by_cases hop : e.owner = p
      · have hvo : st.visibility e.owner = some v := by
          rw [hop]
          exact hv
        have hxo : st.explored e.owner = some x := by
          rw [hop]
          exact hx
        have hstep : visStep st e =
            { st with
              visibility := fun q => if q = e.owner then
                  some (revealCircle st.width st.height v x
                    (Int.floor pos.1) (Int.floor pos.2) (losOf e.kind)).1
                else st.visibility q,
              explored := fun q => if q = e.owner then
                  some (revealCircle st.width st.height v x
                    (Int.floor pos.1) (Int.floor pos.2) (losOf e.kind)).2
                else st.explored q } := by
          unfold visStep
          rw [hp]
          dsimp only
          rw [if_neg how, hvo, hxo]
        rw [hstep]
        refine ⟨(revealCircle st.width st.height v x
            (Int.floor pos.1) (Int.floor pos.2) (losOf e.kind)).1,
          (revealCircle st.width st.height v x
            (Int.floor pos.1) (Int.floor pos.2) (losOf e.kind)).2,
          ?_, ?_, rfl, rfl, fun t => ?_, fun t => ?_⟩
        · show (if p = e.owner then
              some (revealCircle st.width st.height v x
                (Int.floor pos.1) (Int.floor pos.2) (losOf e.kind)).1
            else st.visibility p) = _
          rw [if_pos hop.symm]
        · show (if p = e.owner then
              some (revealCircle st.width st.height v x
                (Int.floor pos.1) (Int.floor pos.2) (losOf e.kind)).2
            else st.explored p) = _
          rw [if_pos hop.symm]
        · rw [revealCircle_char1]
          constructor
          · rintro (h | ⟨hdisc, hb⟩)
            · exact Or.inl h
            · exact Or.inr ⟨hop, ⟨pos, hp, how, hdisc⟩, hb⟩
          · rintro (h | ⟨_, ⟨pos', hpos', _, hdisc⟩, hb⟩)
            · exact Or.inl h
            · rw [hp] at hpos'
              cases hpos'
              exact Or.inr ⟨hdisc, hb⟩
        · rw [revealCircle_char2]
          constructor
          · rintro (h | ⟨hdisc, hb⟩)
            · exact Or.inl h
            · exact Or.inr ⟨hop, ⟨pos, hp, how, hdisc⟩, hb⟩
          · rintro (h | ⟨_, ⟨pos', hpos', _, hdisc⟩, hb⟩)
            · exact Or.inl h
            · rw [hp] at hpos'
              cases hpos'
              exact Or.inr ⟨hdisc, hb⟩
      · have hpe : ¬ p = e.owner := fun hh => hop hh.symm
        cases hvo : st.visibility e.owner with
        | none =>
          cases hxo : st.explored e.owner with
          | none =>
            have hstep : visStep st e = st := by
              unfold visStep
              rw [hp]
              dsimp only
              rw [if_neg how, hvo, hxo]
            rw [hstep]
            refine ⟨v, x, hv, hx, rfl, rfl, fun t => ?_, fun t => ?_⟩ <;>
              (constructor
               · exact Or.inl
               · rintro (h | ⟨hop', _⟩)
                 · exact h
                 · exact absurd hop' hop)
          | some xo =>
            have hstep : visStep st e = st := by
              unfold visStep
              rw [hp]
              dsimp only
              rw [if_neg how, hvo, hxo]
            rw [hstep]
            refine ⟨v, x, hv, hx, rfl, rfl, fun t => ?_, fun t => ?_⟩ <;>
              (constructor
               · exact Or.inl
               · rintro (h | ⟨hop', _⟩)
                 · exact h
                 · exact absurd hop' hop)
        | some vo =>
          cases hxo : st.explored e.owner with
          | none =>
            have hstep : visStep st e = st := by
              unfold visStep
              rw [hp]
              dsimp only
              rw [if_neg how, hvo, hxo]
            rw [hstep]
            refine ⟨v, x, hv, hx, rfl, rfl, fun t => ?_, fun t => ?_⟩ <;>
              (constructor
               · exact Or.inl
               · rintro (h | ⟨hop', _⟩)
                 · exact h
                 · exact absurd hop' hop)
          | some xo =>
            have hstep : visStep st e =
                { st with
                  visibility := fun q => if q = e.owner then
                      some (revealCircle st.width st.height vo xo
                        (Int.floor pos.1) (Int.floor pos.2) (losOf e.kind)).1
                    else st.visibility q,
                  explored := fun q => if q = e.owner then
                      some (revealCircle st.width st.height vo xo
                        (Int.floor pos.1) (Int.floor pos.2) (losOf e.kind)).2
                    else st.explored q } := by
              unfold visStep
              rw [hp]
              dsimp only
              rw [if_neg how, hvo, hxo]
            rw [hstep]
            refine ⟨v, x, ?_, ?_, rfl, rfl, fun t => ?_, fun t => ?_⟩
            · show (if p = e.owner then
                  some (revealCircle st.width st.height vo xo
                    (Int.floor pos.1) (Int.floor pos.2) (losOf e.kind)).1
                else st.visibility p) = some v
              rw [if_neg hpe]
              exact hv
            · show (if p = e.owner then
                  some (revealCircle st.width st.height vo xo
                    (Int.floor pos.1) (Int.floor pos.2) (losOf e.kind)).2
                else st.explored p) = some x
              rw [if_neg hpe]
              exact hx
            · constructor
              · exact Or.inl
              · rintro (h | ⟨hop', _⟩)
                · exact h
                · exact absurd hop' hop
            · constructor
              · exact Or.inl
              · rintro (h | ⟨hop', _⟩)
                · exact h
                · exact absurd hop' hop

theorem visFold_char (p : Int) (width height : Int)
    (es : List FogEntity) :
    ∀ (st : FogState) (v x : (Int × Int) → Bool),
      st.width = width → st.height = height →
      st.visibility p = some v → st.explored p = some x →
      ∃ v' x', (es.foldl visStep st).visibility p = some v' ∧
        (es.foldl visStep st).explored p = some x' ∧
        (es.foldl visStep st).width = width ∧
        (es.foldl visStep st).height = height ∧
        (∀ t, v' t = true ↔ (v t = true ∨ coveredIn es p width height t)) ∧
        (∀ t, x' t = true ↔ (x t = true ∨ coveredIn es p width height t)) := by
  induction es with
  | nil =>
    intro st v x hw hh hv hx
    refine ⟨v, x, hv, hx, hw, hh, fun t => ?_, fun t => ?_⟩ <;>
      (constructor
       · exact Or.inl
       · rintro (h | ⟨e, he, _⟩)
         · exact h
         · cases he)
  | cons e es ih =>
    intro st v x hw hh hv hx
    obtain ⟨v1, x1, hv1, hx1, hw1, hh1, hcv1, hcx1⟩ := visStep_char p st v x hv hx e
    rw [List.foldl_cons]
    obtain ⟨v', x', hv', hx', hw', hh', hcv', hcx'⟩ :=
      ih (visStep st e) v1 x1 (hw1.trans hw) (hh1.trans hh) hv1 hx1
    rw [hw, hh] at hcv1 hcx1
    refine ⟨v', x', hv', hx', hw', hh', fun t => ?_, fun t => ?_⟩
    · rw [hcv' t]
      constructor
      · rintro (h1 | hcov)
        · rcases (hcv1 t).mp h1 with h | ⟨hop, hcov, hb⟩
          · exact Or.inl h
          · exact Or.inr ⟨e, List.mem_cons_self _ _, hop, hcov, hb⟩
        · obtain ⟨e', he', hrest⟩ := hcov
          exact Or.inr ⟨e', List.mem_cons_of_mem _ he', hrest⟩
      · rintro (h | ⟨e', he', hrest⟩)
        · exact Or.inl ((hcv1 t).mpr (Or.inl h))
        · rcases List.mem_cons.mp he' with rfl | he''
          · exact Or.inl ((hcv1 t).mpr (Or.inr hrest))
          · exact Or.inr ⟨e', he'', hrest⟩
    · rw [hcx' t]
      constructor
      · rintro (h1 | hcov)
        · rcases (hcx1 t).mp h1 with h | ⟨hop, hcov, hb⟩
          · exact Or.inl h
          · exact Or.inr ⟨e, List.mem_cons_self _ _, hop, hcov, hb⟩
        · obtain ⟨e', he', hrest⟩ := hcov
          exact Or.inr ⟨e', List.mem_cons_of_mem _ he', hrest⟩
      · rintro (h | ⟨e', he', hrest⟩)
        · exact Or.inl ((hcx1 t).mpr (Or.inl h))
        · rcases List.mem_cons.mp he' with rfl | he''
          · exact Or.inl ((hcx1 t).mpr (Or.inr hrest))
          · exact Or.inr ⟨e', he'', hrest⟩

theorem computeVisibility_char (p : Int) (width height : Int)
    (es : List FogEntity) (s : FogState) (v x : (Int × Int) → Bool)
    (hw : s.width = width) (hh : s.height = height)
    (hv : s.visibility p = some v) (hx : s.explored p = some x) :
    ∃ v' x', (computeVisibility es s).visibility p = some v' ∧
      (computeVisibility es s).explored p = some x' ∧
      (computeVisibility es s).width = width ∧
      (computeVisibility es s).height = height ∧
      (∀ t, v' t = true ↔ coveredIn es p width height t) ∧
      (∀ t, x' t = true ↔ (x t = true ∨ coveredIn es p width height t)) := by
  unfold computeVisibility
  have hvc : ({ s with visibility :=
      fun q => (s.visibility q).map (fun _ => fun _ => false) } : FogState).visibility p =
      some (fun _ => false) := by
    show (s.visibility p).map (fun _ => fun _ => false) = some (fun _ => false)
    rw [hv]
    rfl
  obtain ⟨v', x', hv', hx', hw', hh', hcv', hcx'⟩ :=
    visFold_char p width height es
      { s with visibility := fun q => (s.visibility q).map (fun _ => fun _ => false) }
      (fun _ => false) x hw hh hvc hx
  refine ⟨v', x', hv', hx', hw', hh', fun t => ?_, hcx'⟩
  rw [hcv' t]
  constructor
  · rintro (h | h)
    · cases h
    · exact h
  · exact Or.inr

theorem applyHistory_sound (p : Int) (width height : Int)
    (history : List (List FogEntity)) :
    ∀ (s : FogState) (v x : (Int × Int) → Bool),
      s.width = width → s.height = height →
      s.visibility p = some v → s.explored p = some x →
      ∃ v' x', (applyHistory history s).visibility p = some v' ∧
        (applyHistory history s).explored p = some x' ∧
        (applyHistory history s).width = width ∧
        (applyHistory history s).height = height ∧
        (∀ t, v' t = true → (v t = true ∨
          ∃ es ∈ history, coveredIn es p width height t)) ∧
        (∀ t, x' t = true ↔ (x t = true ∨
          ∃ es ∈ history, coveredIn es p width height t)) := by
  induction history with
  | nil =>
    intro s v x hw hh hv hx
    refine ⟨v, x, hv, hx, hw, hh, fun t h => Or.inl h, fun t => ?_⟩
    constructor
    · exact Or.inl
    · rintro (h | ⟨es, hes, _⟩)
      · exact h
      · cases hes
  | cons es history ih =>
    intro s v x hw hh hv hx
    obtain ⟨v1, x1, hv1, hx1, hw1, hh1, hcv1, hcx1⟩ :=
      computeVisibility_char p width height es s v x hw hh hv hx
    show ∃ v' x', (applyHistory history (computeVisibility es s)).visibility p = some v' ∧ _
    obtain ⟨v', x', hv', hx', hw', hh', hcv', hcx'⟩ :=
      ih (computeVisibility es s) v1 x1 hw1 hh1 hv1 hx1
    refine ⟨v', x', hv', hx', hw', hh', fun t h => ?_, fun t => ?_⟩
    · rcases hcv' t h with h1 | ⟨es', hes', hrest⟩
      · rcases (hcv1 t).mp h1 with hcov
        exact Or.inr ⟨es, List.mem_cons_self _ _, hcov⟩
      · exact Or.inr ⟨es', List.mem_cons_of_mem _ hes', hrest⟩
    · rw [hcx' t]
      constructor
      · rintro (h1 | ⟨es', hes', hrest⟩)
        · rcases (hcx1 t).mp h1 with h | hcov
          · exact Or.inl h
          · exact Or.inr ⟨es, List.mem_cons_self _ _, hcov⟩
        · exact Or.inr ⟨es', List.mem_cons_of_mem _ hes', hrest⟩
      · rintro (h | ⟨es', hes', hrest⟩)
        · exact Or.inl ((hcx1 t).mpr (Or.inl h))
        · rcases List.mem_cons.mp hes' with rfl | hes''
          · exact Or.inl ((hcx1 t).mpr (Or.inr hrest))
          · exact Or.inr ⟨es', hes'', hrest⟩

theorem getTileVisibility_eq (s : FogState) (x y : Int) (p : Int)
    (v e : (Int × Int) → Bool)
    (hv : s.visibility p = some v) (he : s.explored p = some e) :
    getTileVisibility s x y p =
      (if x < 0 ∨ x ≥ s.width ∨ y < 0 ∨ y ≥ s.height then 0
       else if v (x, y) then 2 else if e (x, y) then 1 else 0) := by
  unfold getTileVisibility
  rw [hv, he]

end FogOfWar

/-- **C8**: fog-of-war transitions for a player tracked by `init`. Over
any sequence of visibility recomputes (each given the entity list current
at that recompute) starting from the freshly initialised fog: a tile
never covered by the line of sight of any of the player's positioned
entities reports Hidden (0); after a recompute in which an owned entity's
line-of-sight disc covers the in-bounds tile, it reports Visible (2); and
once covered in some earlier recompute, a recompute in which no owned
entity covers it any more reports Explored (1) — never falling back to
Hidden. -/
theorem C8_fog_transitions :
    ∀ (width height : Int) (playerIds : List Int) (p : Int), p ∈ playerIds →
    ∀ (tx ty : Int),
      (∀ history : List (List FogOfWar.FogEntity),
        (∀ es ∈ history, ¬ FogOfWar.coveredIn es p width height (tx, ty)) →
        FogOfWar.getTileVisibility
          (FogOfWar.applyHistory history (FogOfWar.init width height playerIds))
          tx ty p = 0) ∧
      (∀ (prev : List (List FogOfWar.FogEntity)) (cur : List FogOfWar.FogEntity),
        FogOfWar.coveredIn cur p width height (tx, ty) →
        FogOfWar.getTileVisibility
          (FogOfWar.applyHistory (prev ++ [cur])
            (FogOfWar.init width height playerIds)) tx ty p = 2) ∧
      (∀ (prev : List (List FogOfWar.FogEntity)) (cur : List FogOfWar.FogEntity),
        (∃ es ∈ prev, FogOfWar.coveredIn es p width height (tx, ty)) →
        ¬ FogOfWar.coveredIn cur p width height (tx, ty) →
        FogOfWar.getTileVisibility
          (FogOfWar.applyHistory (prev ++ [cur])
            (FogOfWar.init width height playerIds)) tx ty p = 1) := by
  intro width height playerIds p hp tx ty
  have hvi : (FogOfWar.init width height playerIds).visibility p =
      some (fun _ => false) := by
    show (if p ∈ playerIds then some (fun _ => false) else none) = _
    rw [if_pos hp]
  have hxi : (FogOfWar.init width height playerIds).explored p =
      some (fun _ => false) := by
    show (if p ∈ playerIds then some (fun _ => false) else none) = _
    rw [if_pos hp]
  have happ : ∀ (prev : List (List FogOfWar.FogEntity))
      (cur : List FogOfWar.FogEntity),
      FogOfWar.applyHistory (prev ++ [cur]) (FogOfWar.init width height playerIds) =
        FogOfWar.computeVisibility cur
          (FogOfWar.applyHistory prev (FogOfWar.init width height playerIds)) := by
    intro prev cur
    unfold FogOfWar.applyHistory
    rw [List.foldl_append]
    rfl
  refine ⟨?_, ?_, ?_⟩
  · intro history hnever
    obtain ⟨v', x', hv', hx', hw', hh', hsv, hsx⟩ :=
      FogOfWar.applyHistory_sound p width height history _
        (fun _ => false) (fun _ => false) rfl rfl hvi hxi
    rw [FogOfWar.getTileVisibility_eq _ tx ty p v' x' hv' hx', hw', hh']
    by_cases hb : tx < 0 ∨ tx ≥ width ∨ ty < 0 ∨ ty ≥ height
    · rw [if_pos hb]
    · rw [if_neg hb]
      have hvf : v' (tx, ty) = false := by
        cases hvt : v' (tx, ty) with
        | false => rfl
        | true =>
          rcases hsv (tx, ty) hvt with h | ⟨es, hes, hcov⟩
          · cases h
          · exact absurd hcov (hnever es hes)
      have hxf : x' (tx, ty) = false := by
        cases hxt : x' (tx, ty) with
        | false => rfl
        | true =>
          rcases (hsx (tx, ty)).mp hxt with h | ⟨es, hes, hcov⟩
          · cases h
          · exact absurd hcov (hnever es hes)
      rw [hvf, hxf]
      rfl
  · intro prev cur hcov
    rw [happ prev cur]
    obtain ⟨v1, x1, hv1, hx1, hw1, hh1, hsv1, hsx1⟩ :=
      FogOfWar.applyHistory_sound p width height prev _
        (fun _ => false) (fun _ => false) rfl rfl hvi hxi
    obtain ⟨v', x', hv', hx', hw', hh', hcv, hcx⟩ :=
      FogOfWar.computeVisibility_char p width height cur _ v1 x1 hw1 hh1 hv1 hx1
    rw [FogOfWar.getTileVisibility_eq _ tx ty p v' x' hv' hx', hw', hh']
    have hvt : v' (tx, ty) = true := (hcv (tx, ty)).mpr hcov
    have hbounds : ¬(tx < 0 ∨ tx ≥ width ∨ ty < 0 ∨ ty ≥ height) := by
      obtain ⟨e, he, hop, hc, hb1, hb2, hb3, hb4⟩ := hcov
      simp only at hb1 hb2 hb3 hb4
      omega
    rw [if_neg hbounds, hvt]
    rfl
  · intro prev cur hprev hcur
    rw [happ prev cur]
    obtain ⟨v1, x1, hv1, hx1, hw1, hh1, hsv1, hsx1⟩ :=
      FogOfWar.applyHistory_sound p width height prev _
        (fun _ => false) (fun _ => false) rfl rfl hvi hxi
    obtain ⟨v', x', hv', hx', hw', hh', hcv, hcx⟩ :=
      FogOfWar.computeVisibility_char p width height cur _ v1 x1 hw1 hh1 hv1 hx1
    rw [FogOfWar.getTileVisibility_eq _ tx ty p v' x' hv' hx', hw', hh']
    have hvf : v' (tx, ty) = false := by
      cases hvt : v' (tx, ty) with
      | false => rfl
      | true => exact absurd ((hcv (tx, ty)).mp hvt) hcur
    have hxt : x' (tx, ty) = true :=
      (hcx (tx, ty)).mpr (Or.inl ((hsx1 (tx, ty)).mpr (Or.inr hprev)))
    have hbounds : ¬(tx < 0 ∨ tx ≥ width ∨ ty < 0 ∨ ty ≥ height) := by
      obtain ⟨es, hes, e, he, hop, hc, hb1, hb2, hb3, hb4⟩ := hprev
      simp only at hb1 hb2 hb3 hb4
      omega
    rw [if_neg hbounds, hvf, hxt]
    rfl

/-- Witness for C8: on an 8×8 map with tracked player 1, a recompute with
the unit `fogE0` at (2,2) makes tile (2,2) Visible (2); a following
recompute with the unit gone reports it Explored (1). -/
theorem C8_fog_transitions_witness :
    FogOfWar.getTileVisibility
      (FogOfWar.applyHistory ([] ++ [[fogE0]]) (FogOfWar.init 8 8 [1])) 2 2 1 = 2 ∧
    FogOfWar.getTileVisibility
      (FogOfWar.applyHistory ([[fogE0]] ++ [[]]) (FogOfWar.init 8 8 [1])) 2 2 1 = 1 :=
  have hcovers : FogOfWar.covers fogE0 (2, 2) :=
    ⟨(2, 2), rfl, by decide, by with_unfolding_all decide⟩
  have hcov : FogOfWar.coveredIn [fogE0] 1 8 8 (2, 2) :=
    ⟨fogE0, List.mem_singleton.mpr rfl, rfl, hcovers,
      by decide, by decide, by decide, by decide⟩
  ⟨(C8_fog_transitions 8 8 [1] 1 (by decide) 2 2).2.1 [] [fogE0] hcov,
   (C8_fog_transitions 8 8 [1] 1 (by decide) 2 2).2.2 [[fogE0]] []
     ⟨[fogE0], List.mem_singleton.mpr rfl, hcov⟩
     (by rintro ⟨e, he, _⟩; cases he)⟩
